import Mathlib

/-!
Verification development for the IaC resource/dependency resolver of
`tools/generate_arch_diagram.py`: a shallow embedding of its data model
(parsed map/list/scalar trees), reference extractors, resource loaders,
graph builders, fallback chain builder, network-hierarchy attribute scans,
format dispatch and the limited file reader, together with theorems about
them.

Modelling conventions:
* Parsed documents (the output of the external parsers `hcl2.loads`,
  `yaml.load`, `json.loads`) are values of the closed tree type `Val`;
  Python dicts become association lists in insertion order (Python dicts
  preserve insertion order).
* Python `set` objects are modelled as duplicate-free lists in first-insertion
  order (`setAdd`).  Every place the source iterates a set in an
  order-sensitive way is noted at its definition.
* Python strings are `String` / `List Char`; the embedding models the
  ASCII fragment of Python's Unicode-aware character classes, which is the
  fragment exercised by identifiers, paths and references.
* Regex scans (`finditer`, `match`, `search`, `sub`) are compiled to
  deterministic character-level scanners that reproduce the leftmost,
  greedy, non-overlapping semantics of the concrete patterns in the source.
-/

namespace AutoArch

/-- Parsed document tree produced by the external grammars: nested maps,
lists and scalars.  Maps are association lists in insertion order. -/
inductive Val where
  | vStr : String → Val
  | vInt : Int → Val
  | vBool : Bool → Val
  | vNull : Val
  | vList : List Val → Val
  | vDict : List (String × Val) → Val

namespace Val

mutual

def beqVal : Val → Val → Bool
  | .vStr a, .vStr b => a == b
  | .vInt a, .vInt b => a == b
  | .vBool a, .vBool b => a == b
  | .vNull, .vNull => true
  | .vList a, .vList b => beqValList a b
  | .vDict a, .vDict b => beqValKVs a b
  | _, _ => false

def beqValList : List Val → List Val → Bool
  | [], [] => true
  | a :: as, b :: bs => beqVal a b && beqValList as bs
  | _, _ => false

def beqValKVs : List (String × Val) → List (String × Val) → Bool
  | [], [] => true
  | (ka, va) :: as, (kb, vb) :: bs => ka == kb && beqVal va vb && beqValKVs as bs
  | _, _ => false

end

mutual

theorem beqVal_refl : ∀ v : Val, beqVal v v = true
  | .vStr a => by simp [beqVal]
  | .vInt a => by simp [beqVal]
  | .vBool a => by simp [beqVal]
  | .vNull => by simp [beqVal]
  | .vList xs => by simp [beqVal, beqValList_refl xs]
  | .vDict kvs => by simp [beqVal, beqValKVs_refl kvs]

theorem beqValList_refl : ∀ xs : List Val, beqValList xs xs = true
  | [] => by simp [beqValList]
  | x :: xs => by simp [beqValList, beqVal_refl x, beqValList_refl xs]

theorem beqValKVs_refl : ∀ kvs : List (String × Val), beqValKVs kvs kvs = true
  | [] => by simp [beqValKVs]
  | (k, v) :: kvs => by simp [beqValKVs, beqVal_refl v, beqValKVs_refl kvs]

end

mutual

theorem beqVal_eq : ∀ a b : Val, beqVal a b = true → a = b
  | .vStr a, .vStr b, h => by simpa [beqVal] using congrArg Val.vStr (by
      simpa [beqVal] using h)
  | .vStr _, .vInt _, h => by simp [beqVal] at h
  | .vStr _, .vBool _, h => by simp [beqVal] at h
  | .vStr _, .vNull, h => by simp [beqVal] at h
  | .vStr _, .vList _, h => by simp [beqVal] at h
  | .vStr _, .vDict _, h => by simp [beqVal] at h
  | .vInt _, .vStr _, h => by simp [beqVal] at h
  | .vInt a, .vInt b, h => by
      have : a = b := by simpa [beqVal] using h
      rw [this]
  | .vInt _, .vBool _, h => by simp [beqVal] at h
  | .vInt _, .vNull, h => by simp [beqVal] at h
  | .vInt _, .vList _, h => by simp [beqVal] at h
  | .vInt _, .vDict _, h => by simp [beqVal] at h
  | .vBool _, .vStr _, h => by simp [beqVal] at h
  | .vBool _, .vInt _, h => by simp [beqVal] at h
  | .vBool a, .vBool b, h => by
      have : a = b := by simpa [beqVal] using h
      rw [this]
  | .vBool _, .vNull, h => by simp [beqVal] at h
  | .vBool _, .vList _, h => by simp [beqVal] at h
  | .vBool _, .vDict _, h => by simp [beqVal] at h
  | .vNull, .vStr _, h => by simp [beqVal] at h
  | .vNull, .vInt _, h => by simp [beqVal] at h
  | .vNull, .vBool _, h => by simp [beqVal] at h
  | .vNull, .vNull, _ => rfl
  | .vNull, .vList _, h => by simp [beqVal] at h
  | .vNull, .vDict _, h => by simp [beqVal] at h
  | .vList _, .vStr _, h => by simp [beqVal] at h
  | .vList _, .vInt _, h => by simp [beqVal] at h
  | .vList _, .vBool _, h => by simp [beqVal] at h
  | .vList _, .vNull, h => by simp [beqVal] at h
  | .vList a, .vList b, h => by
      have : a = b := beqValList_eq a b (by simpa [beqVal] using h)
      rw [this]
  | .vList _, .vDict _, h => by simp [beqVal] at h
  | .vDict _, .vStr _, h => by simp [beqVal] at h
  | .vDict _, .vInt _, h => by simp [beqVal] at h
  | .vDict _, .vBool _, h => by simp [beqVal] at h
  | .vDict _, .vNull, h => by simp [beqVal] at h
  | .vDict _, .vList _, h => by simp [beqVal] at h
  | .vDict a, .vDict b, h => by
      have : a = b := beqValKVs_eq a b (by simpa [beqVal] using h)
      rw [this]

theorem beqValList_eq : ∀ a b : List Val, beqValList a b = true → a = b
  | [], [], _ => rfl
  | [], _ :: _, h => by simp [beqValList] at h
  | _ :: _, [], h => by simp [beqValList] at h
  | a :: as, b :: bs, h => by
      have h' := h
      simp [beqValList] at h'
      have h1 : a = b := beqVal_eq a b h'.1
      have h2 : as = bs := beqValList_eq as bs h'.2
      rw [h1, h2]

theorem beqValKVs_eq : ∀ a b : List (String × Val), beqValKVs a b = true → a = b
  | [], [], _ => rfl
  | [], _ :: _, h => by simp [beqValKVs] at h
  | _ :: _, [], h => by simp [beqValKVs] at h
  | (ka, va) :: as, (kb, vb) :: bs, h => by
      have h' := h
      simp [beqValKVs] at h'
      have h1 : ka = kb := h'.1.1
      have h2 : va = vb := beqVal_eq va vb h'.1.2
      have h3 : as = bs := beqValKVs_eq as bs h'.2
      rw [h1, h2, h3]

end

instance : DecidableEq Val := fun a b =>
  if h : beqVal a b = true then
    .isTrue (beqVal_eq a b h)
  else
    .isFalse (fun he => h (he ▸ beqVal_refl a))

end Val

instance {ε α : Type} [DecidableEq ε] [DecidableEq α] : DecidableEq (Except ε α) :=
  fun a b =>
  match a, b with
  | .error e1, .error e2 =>
    if h : e1 = e2 then .isTrue (by rw [h])
    else .isFalse (fun hc => h (by injection hc))
  | .error _, .ok _ => .isFalse (fun hc => Except.noConfusion hc)
  | .ok _, .error _ => .isFalse (fun hc => Except.noConfusion hc)
  | .ok v1, .ok v2 =>
    if h : v1 = v2 then .isTrue (by rw [h])
    else .isFalse (fun hc => h (by injection hc))

mutual

/-- `_walk(obj)`: generic recursive visitor — yields the node itself, then
every descendant (map values, list elements) recursively; scalars yield
only themselves (source lines 1049-1060). -/
def walk : Val → List Val
  | .vDict kvs => .vDict kvs :: walkKVs kvs
  | .vList xs => .vList xs :: walkList xs
  | v => [v]

/-- Walk each element of a list node in order. -/
def walkList : List Val → List Val
  | [] => []
  | x :: xs => walk x ++ walkList xs

/-- Walk each map value in insertion order (Python `dict.values()`). -/
def walkKVs : List (String × Val) → List Val
  | [] => []
  | (_, v) :: kvs => walk v ++ walkKVs kvs

end

/-! ### Python container helpers

Python `set` objects are modelled as duplicate-free lists in first-insertion
order; `dict` objects as association lists where assignment to an existing
key replaces the value in place and assignment to a fresh key appends. -/

/-- `s.add(x)` on a Python set: no-op when the element is present. -/
def setAdd [DecidableEq α] (xs : List α) (x : α) : List α :=
  if x ∈ xs then xs else xs ++ [x]

/-- `s |= t` on Python sets (left-biased insertion order). -/
def setUnion [DecidableEq α] (xs ys : List α) : List α :=
  ys.foldl setAdd xs

/-- Python `d[k]` / `d.get(k)`: first matching entry of the association list
(a real Python dict has unique keys). -/
def dictGet [DecidableEq κ] : List (κ × α) → κ → Option α
  | [], _ => none
  | (k', v) :: kvs, k => if k' = k then some v else dictGet kvs k

/-- Python `d[k] = v`: replace in place when the key exists, else append. -/
def dictInsert [DecidableEq κ] (kvs : List (κ × α)) (k : κ) (v : α) : List (κ × α) :=
  if (dictGet kvs k).isSome then
    kvs.map (fun e => if e.1 = k then (e.1, v) else e)
  else
    kvs ++ [(k, v)]

/-- Keys of a Python dict, in insertion order. -/
def dictKeys (kvs : List (κ × α)) : List κ := kvs.map Prod.fst

/-! ### Python string helpers (ASCII fragment) -/

/-- The regex class `[a-zA-Z0-9_]` (and ASCII `\w`). -/
def isIdentChar (c : Char) : Bool := c.isAlphanum || c = '_'

/-- The lookbehind class `[\w-]` of `_TF_REF_RE`. -/
def isWordOrHyphen (c : Char) : Bool := isIdentChar c || c = '-'

/-- Split a character list into its maximal leading run satisfying `p` and
the remainder (the greedy `p+`/`p*` step of every regex below). -/
def splitRun (p : Char → Bool) : List Char → List Char × List Char
  | [] => ([], [])
  | c :: cs =>
    if p c then
      let (r, rest) := splitRun p cs
      (c :: r, rest)
    else ([], c :: cs)

/-- Python `s.split(sep, 1)`: split at the first occurrence of `sep`
(`sep` nonempty), or `none` when `sep` does not occur. -/
def splitOnce (sep : List Char) : List Char → Option (List Char × List Char)
  | [] => none
  | c :: cs =>
    if sep.isPrefixOf (c :: cs) then some ([], (c :: cs).drop sep.length)
    else
      match splitOnce sep cs with
      | some (pre, post) => some (c :: pre, post)
      | none => none

/-- Python `sub in s` for a nonempty substring `sub`. -/
def containsSub (sub : List Char) (cs : List Char) : Bool :=
  (splitOnce sub cs).isSome

/-- Python `\s` (ASCII fragment). -/
def isPySpace (c : Char) : Bool :=
  c = ' ' || c = '\t' || c = '\n' || c = '\r' || c.toNat = 12 || c.toNat = 11

/-- ASCII `str.lower()` (structural, unlike the byte-position-based core
`String.toLower`, so that proofs can evaluate it). -/
def pyLower (s : String) : String := ⟨s.data.map Char.toLower⟩

/-- Python `str.strip()` over the ASCII `\s` class (structural). -/
def pyTrim (s : String) : String :=
  ⟨((s.data.dropWhile isPySpace).reverse.dropWhile isPySpace).reverse⟩

/-- `s.startswith(pre)` (structural). -/
def pyStartsWith (s pre : String) : Bool := pre.data.isPrefixOf s.data

/-- `s.endswith(suf)` (structural). -/
def pyEndsWith (s suf : String) : Bool := suf.data.isSuffixOf s.data

/-- Python string `<` (code-point lexicographic). -/
def strLtB : List Char → List Char → Bool
  | [], [] => false
  | [], _ :: _ => true
  | _ :: _, [] => false
  | a :: as, b :: bs =>
    if a.toNat < b.toNat then true
    else if a.toNat = b.toNat then strLtB as bs
    else false

/-- Insert into an ascending list (step of `sorted`). -/
def insertSorted (x : String) : List String → List String
  | [] => [x]
  | y :: ys => if strLtB y.data x.data then y :: insertSorted x ys else x :: y :: ys

/-- Python `sorted` on strings (ascending code-point order). -/
def pySorted (xs : List String) : List String := xs.foldr insertSorted []

/-- Python `str.splitlines()` for newline-normalized text (the only caller
feeds it text whose `\r` were already rewritten to `\n` by
`_read_file_limited`): split on `\n`, without a trailing empty line. -/
def splitNlChars : List Char → List (List Char)
  | [] => [[]]
  | '\n' :: cs => [] :: splitNlChars cs
  | c :: cs =>
    match splitNlChars cs with
    | g :: gs => (c :: g) :: gs
    | [] => [[c]]

/-- See `pySplitlines`. -/
def pySplitlines (s : String) : List String :=
  if s = "" then []
  else
    let parts := (splitNlChars s.data).map String.mk
    if parts.getLast? = some "" then parts.dropLast else parts

/-! ### The Terraform interpolation extractor

`_TF_REF_RE = (?<![\w-])([a-zA-Z0-9_]+)\.([a-zA-Z0-9_]+)(?:\.[a-zA-Z0-9_]+)*`
(source lines 1063-1065), scanned with `finditer` over every string scalar
(lines 1068-1074).  The pattern is deterministic (all its quantified classes
are followed by characters outside the class), so `finditer`'s leftmost,
greedy, non-overlapping scan is compiled to the state machine below:

* `out wh`    — outside any candidate match; `wh` records whether the
  previous character was in `[\w-]` (the negative lookbehind);
* `s1 a`      — reading the first identifier segment `a` (started at a
  position where the lookbehind held);
* `d1 s`      — first segment `s` read, just consumed the `.`;
* `s2 s a`    — reading the second segment `a`; the match `s.a` is emitted
  when this run ends;
* `tdot`      — inside the trailing `(?:\.[a-zA-Z0-9_]+)*` groups, just
  consumed a `.`;
* `trun`      — inside a trailing identifier run.

A failed candidate resumes exactly where `finditer` would: every character
inside a failed first segment is preceded by a word character, so no match
can begin there, and the character that caused the failure is re-dispatched
with the boundary state it induces. -/
inductive TfSt where
  | out (wh : Bool)
  | s1 (a : List Char)
  | d1 (s : List Char)
  | s2 (s a : List Char)
  | tdot
  | trun

/-- Re-dispatch a character from the outside state. -/
def tfOut (c : Char) : TfSt :=
  if isIdentChar c then .s1 [c] else .out (isWordOrHyphen c)

/-- Boundary-aware dispatch: start a first segment only when the negative
lookbehind `(?<![\w-])` holds at this position. -/
def tfDispatch (wh : Bool) (c : Char) : TfSt :=
  if wh then .out (isWordOrHyphen c) else tfOut c

/-- Emitted reference: first two dot-separated segments only. -/
def tfEmit (s a : List Char) : String := String.mk (s ++ '.' :: a)

/-- One scanner step; returns the next state and an emitted reference when a
match's second segment just completed. -/
def tfStep : TfSt → Char → TfSt × Option String
  | .out wh, c => (tfDispatch wh c, none)
  | .s1 a, c =>
    if isIdentChar c then (.s1 (a ++ [c]), none)
    else if c = '.' then (.d1 a, none)
    else (.out (isWordOrHyphen c), none)
  | .d1 s, c =>
    if isIdentChar c then (.s2 s [c], none)
    -- the candidate failed at the `.`: the failing character is preceded
    -- by `.`, so the lookbehind holds at it, but a non-identifier character
    -- cannot start a match
    else (.out (isWordOrHyphen c), none)
  | .s2 s a, c =>
    if isIdentChar c then (.s2 s (a ++ [c]), none)
    else if c = '.' then (.tdot, some (tfEmit s a))
    else (.out (isWordOrHyphen c), some (tfEmit s a))
  | .tdot, c =>
    -- after `seg1.seg2(...)*.`: an identifier extends the match, anything
    -- else leaves the dot unconsumed (it is not in `[\w-]`, so the next
    -- character sits at a boundary)
    if isIdentChar c then (.trun, none) else (tfOut c, none)
  | .trun, c =>
    if isIdentChar c then (.trun, none)
    else if c = '.' then (.tdot, none)
    else (.out (isWordOrHyphen c), none)

/-- End of input: a completed second segment still emits. -/
def tfFinish : TfSt → Option String
  | .s2 s a => some (tfEmit s a)
  | _ => none

/-- Run the scanner over a character list, emitting matches in order. -/
def tfScanFrom (st : TfSt) : List Char → List String
  | [] => (tfFinish st).toList
  | c :: cs =>
    let (st', e) := tfStep st c
    match e with
    | some r => r :: tfScanFrom st' cs
    | none => tfScanFrom st' cs

/-- All `_TF_REF_RE` matches of one string, as `f"{m.group(1)}.{m.group(2)}"`,
in scan order (duplicates preserved; callers deduplicate via set-add). -/
def tfStringRefs (s : String) : List String := tfScanFrom (.out false) s.data

/-- `_extract_tf_resource_refs(value)` (source lines 1068-1074): walk the
tree and collect the match set over every string scalar. -/
def extractTfResourceRefs (v : Val) : List String :=
  (walk v).foldl
    (fun acc item =>
      match item with
      | .vStr s => (tfStringRefs s).foldl setAdd acc
      | _ => acc)
    []

/-! ### The `${...}` scanners of the CloudFormation and Pulumi extractors

CloudFormation (source lines 3496-3502): `\$\{([A-Za-z0-9]+)(?:\.[^\}]+)?\}`,
emitting the leading identifier.  Pulumi (line 3829):
`\$\{([A-Za-z0-9_-]+)\.[^\}]+\}`, where the `.attr` part is mandatory.
Both are deterministic, compiled to one parameterized state machine:

* `idle` / `dollar` / `expectId` — before and inside the `${` opener;
* `inId a` — reading the identifier;
* `afterDot i` — just consumed the `.` after identifier `i`;
* `inAttr i` — inside the `[^\}]+` attribute part.

A failed candidate re-dispatches its failing character (which is the only
character of a failed candidate from which a later match could start, since
the consumed characters of a candidate contain no later `$`-opener that
`finditer` would revisit). -/
inductive SubSt where
  | idle
  | dollar
  | expectId
  | inId (a : List Char)
  | afterDot (i : List Char)
  | inAttr (i : List Char)

/-- Dispatch a character from outside a candidate. -/
def subIdle (c : Char) : SubSt := if c = '$' then .dollar else .idle

/-- One step of the `${...}` scanner.  `idC` is the identifier class
(`[A-Za-z0-9]` for CloudFormation, `[A-Za-z0-9_-]` for Pulumi); `bare` is
whether `${Id}` without an attribute part matches (CloudFormation yes,
Pulumi no). -/
def subStep (idC : Char → Bool) (bare : Bool) : SubSt → Char → SubSt × Option String
  | .idle, c => (subIdle c, none)
  | .dollar, c =>
    if c = '\x7b' then (.expectId, none) else (subIdle c, none)
  | .expectId, c =>
    if idC c then (.inId [c], none) else (subIdle c, none)
  | .inId a, c =>
    if idC c then (.inId (a ++ [c]), none)
    else if c = '.' then (.afterDot a, none)
    else if c = '\x7d' && bare then (.idle, some (String.mk a))
    else (subIdle c, none)
  | .afterDot i, c =>
    -- `[^\}]+` needs at least one character before the closing brace
    if c = '\x7d' then (subIdle c, none) else (.inAttr i, none)
  | .inAttr i, c =>
    if c = '\x7d' then (.idle, some (String.mk i)) else (.inAttr i, none)

/-- Run the `${...}` scanner; an unterminated candidate at end of input
emits nothing (as the regex fails there). -/
def subScanFrom (idC : Char → Bool) (bare : Bool) (st : SubSt) : List Char → List String
  | [] => []
  | c :: cs =>
    let (st', e) := subStep idC bare st c
    match e with
    | some r => r :: subScanFrom idC bare st' cs
    | none => subScanFrom idC bare st' cs

/-- The regex class `[A-Za-z0-9]` of the CloudFormation `Fn::Sub`/bare-string
scan. -/
def isCfnIdChar (c : Char) : Bool := c.isAlphanum

/-- The regex class `[A-Za-z0-9_-]` of the Pulumi expression scan. -/
def isPulumiIdChar (c : Char) : Bool := c.isAlphanum || c = '_' || c = '-'

/-- Matches of `\$\{([A-Za-z0-9]+)(?:\.[^\}]+)?\}` in one string, leading
identifiers in scan order. -/
def cfnSubRefs (s : String) : List String :=
  subScanFrom isCfnIdChar true .idle s.data

/-- Matches of `\$\{([A-Za-z0-9_-]+)\.[^\}]+\}` in one string, leading
identifiers in scan order. -/
def pulumiSubRefs (s : String) : List String :=
  subScanFrom isPulumiIdChar false .idle s.data

/-- `_extract_cfn_refs(value)` (source lines 3481-3503): walk the tree; on
map nodes consume `Ref`, `Fn::GetAtt` (list or string form) and `Fn::Sub`;
on bare strings scan for `${id...}`. -/
def extractCfnRefs (v : Val) : List String :=
  (walk v).foldl
    (fun acc item =>
      match item with
      | .vDict kvs =>
        let acc :=
          match dictGet kvs "Ref" with
          | some (.vStr s) => setAdd acc s
          | _ => acc
        let acc :=
          match dictGet kvs "Fn::GetAtt" with
          | some (.vList (.vStr g0 :: _)) => setAdd acc g0
          | some (.vStr g) =>
            -- 'Resource.Attribute': `ga.split(".", 1)[0]`
            setAdd acc (match splitOnce ['.'] g.data with
              | some (pre, _) => String.mk pre
              | none => g)
          | _ => acc
        match dictGet kvs "Fn::Sub" with
        | some (.vStr s) => (cfnSubRefs s).foldl setAdd acc
        | _ => acc
      | .vStr s => (cfnSubRefs s).foldl setAdd acc
      | _ => acc)
    []

/-- `_pulumi_yaml_extract_refs(value)` (source lines 3825-3831). -/
def pulumiYamlExtractRefs (v : Val) : List String :=
  (walk v).foldl
    (fun acc item =>
      match item with
      | .vStr s => (pulumiSubRefs s).foldl setAdd acc
      | _ => acc)
    []

/-! ### Terraform resource loading, environment naming and graph building -/

/-- Python truthiness of a parsed value. -/
def valTruthy : Val → Bool
  | .vNull => false
  | .vStr s => s ≠ ""
  | .vInt n => n ≠ 0
  | .vBool b => b
  | .vList xs => xs ≠ []
  | .vDict kvs => kvs ≠ []

/-- `v.get(k)` for a map node (`none` for non-maps and missing keys). -/
def valGet : Val → String → Option Val
  | .vDict kvs, k => dictGet kvs k
  | _, _ => none

/-- `d[k] = v` inside a map node (identity on non-maps, which never occurs). -/
def valDictInsert : Val → String → Val → Val
  | .vDict kvs, k, v => .vDict (dictInsert kvs k v)
  | other, _, _ => other

/-- ASCII single quote (Python exception texts, Bicep type literals). -/
def squote : Char := Char.ofNat 39

/-- The Python type name of a parsed value, as it appears in the text of
exceptions such as `AttributeError` and `TypeError`. -/
def pyTypeName : Val → String
  | .vStr _ => "str"
  | .vInt _ => "int"
  | .vBool _ => "bool"
  | .vNull => "NoneType"
  | .vList _ => "list"
  | .vDict _ => "dict"

/-- `str(exc)` of the `AttributeError` raised by `t.get(...)` on a
non-mapping `t` (source lines 3727 and 3859). -/
def noGetAttrMsg (t : Val) : String :=
  ⟨[squote]⟩ ++ pyTypeName t ++ ⟨[squote]⟩ ++ " object has no attribute "
    ++ ⟨[squote]⟩ ++ "get" ++ ⟨[squote]⟩

/-- `str(exc)` of the `TypeError` raised by `for block in blocks` on a
truthy non-iterable value (source line 1084 resp. 1114). -/
def notIterableMsg (t : Val) : String :=
  ⟨[squote]⟩ ++ pyTypeName t ++ ⟨[squote]⟩ ++ " object is not iterable"

/-- Does `for block in blocks` raise `TypeError` on this hcl2 value?  Only
truthy numbers and `True`: strings, lists and mappings iterate (their
elements, characters resp. keys, are then skipped by the `isinstance`
guards), and falsy values were already returned on (`if not blocks`). -/
def tfBlocksRaise : Val → Bool
  | .vInt n => n ≠ 0
  | .vBool b => b
  | _ => false

/-- The first `TypeError`-raising block value of one root Terraform
document: its `resource` blocks are iterated (source line 1084) before its
`module` blocks (source line 1114). -/
def tfParsedRaise (parsed : Val) : Option Val :=
  match valGet parsed "resource" with
  | some b =>
    if tfBlocksRaise b then some b
    else
      match valGet parsed "module" with
      | some m => if tfBlocksRaise m then some m else none
      | none => none
  | none =>
    match valGet parsed "module" with
    | some m => if tfBlocksRaise m then some m else none
    | none => none

/-- The first `TypeError`-raising block value of one module document: only
its `resource` blocks are read (source lines 1364-1367). -/
def tfModuleParsedRaise (parsed : Val) : Option Val :=
  match valGet parsed "resource" with
  | some b => if tfBlocksRaise b then some b else none
  | none => none

/-- The first parsed document that is not a mapping: its `.get` raises
`AttributeError`, aborting the whole attempt (source line 3727 for
CloudFormation, 3859 for Pulumi YAML) even when other documents parsed and
supplied resources. -/
def firstNonMapping (docs : List Val) : Option Val :=
  docs.find? (fun t => match t with | .vDict _ => false | _ => true)

/-- `_terraform_resources_from_hcl(parsed, name_prefix)` (source lines
1077-1105): `resource` blocks are a list of `{type: {name: attrs}}` dicts
(or defensively `{type: [{name: attrs}]}`); id is `"type.prefix+name"`;
types with the `null_` marker are dropped.  On a truthy non-iterable
`resource` value the source raises `TypeError` instead of returning — that
raising case is factored into `tfBlocksRaise`/`tfFirstRaise`, checked by
`staticTerraformGraph` before this collector's value is used; on every
non-raising input this collector is the source's return value (a truthy
string or mapping iterates into skipped non-dict elements, yielding
nothing). -/
def terraformResourcesFromHcl (parsed : Val) (namePfx : String) : List (String × Val) :=
  match valGet parsed "resource" with
  | none => []
  | some blocks =>
    if !valTruthy blocks then []
    else
      match blocks with
      | .vList bs =>
        bs.foldl
          (fun res block =>
            match block with
            | .vDict entries =>
              entries.foldl
                (fun res (rType, rBody) =>
                  if pyStartsWith rType "null_" then res
                  else
                    match rBody with
                    | .vDict names =>
                      names.foldl
                        (fun res (name, attrs) =>
                          match attrs with
                          | .vDict _ => dictInsert res (rType ++ "." ++ namePfx ++ name) attrs
                          | _ => res)
                        res
                    | .vList entries2 =>
                      entries2.foldl
                        (fun res entry =>
                          match entry with
                          | .vDict names =>
                            names.foldl
                              (fun res (name, attrs) =>
                                match attrs with
                                | .vDict _ => dictInsert res (rType ++ "." ++ namePfx ++ name) attrs
                                | _ => res)
                              res
                          | _ => res)
                        res
                    | _ => res)
                res
            | _ => res)
          []
      -- iterating a non-list yields non-dict items, all skipped
      | _ => []

/-- `_terraform_modules_from_hcl(parsed)` (source lines 1108-1128):
`(alias, source)` pairs of `module` blocks.  A truthy non-iterable
`module` value raises `TypeError` in the source — factored into
`tfBlocksRaise`/`tfFirstRaise` and checked by `staticTerraformGraph`;
this collector is the source's return value on non-raising input. -/
def terraformModulesFromHcl (parsed : Val) : List (String × String) :=
  match valGet parsed "module" with
  | none => []
  | some blocks =>
    if !valTruthy blocks then []
    else
      match blocks with
      | .vList bs =>
        bs.foldl
          (fun mods block =>
            match block with
            | .vDict entries =>
              entries.foldl
                (fun mods (name, attrs) =>
                  let moduleAttrs :=
                    match attrs with
                    | .vList (a :: _) => a
                    | _ => attrs
                  match moduleAttrs with
                  | .vDict kvs =>
                    let src :=
                      match dictGet kvs "source" with
                      | some (.vList (s :: _)) => some s
                      | some s => some s
                      | none => none
                    match src with
                    | some (.vStr s) =>
                      if pyTrim s ≠ "" then mods ++ [(name, pyTrim s)] else mods
                    | _ => mods
                  | _ => mods)
                mods
            | _ => mods)
          []
      | _ => []

/-- `_KNOWN_ENV_NAMES` (source lines 1176-1190). -/
def knownEnvNames : List String :=
  ["dev", "development", "preprod", "pre-prod", "prod", "production",
   "stage", "staging", "qa", "test", "uat", "sandbox", "shared"]

/-- `_ENV_DIR_EXCLUDE` (source lines 1192-1205). -/
def envDirExclude : List String :=
  ["modules", "module", "account_config", "accounts", "artifacts",
   "templates", "template", "img", "images", "cloud_formation",
   "config", "configs"]

/-- `_is_known_env(name)` (source lines 1208-1209). -/
def isKnownEnv (name : String) : Bool := knownEnvNames.contains (pyLower (pyTrim name))

/-- `_normalize_env_name(name)` (source lines 1212-1215); `none` models
Python `None` and the falsy empty string. -/
def normalizeEnvName : Option String → Option String
  | none => none
  | some s => if s = "" then none else some (pyLower (pyTrim s))

/-- `_detect_environment_from_path(path, repo_root)` (source lines
1222-1242) on the path's components relative to the repo root: first a
directory right after a `terraform/` component (known environments always
accepted, other names accepted unless structural), else the first component
that is a known environment name. -/
def detectEnvScan : List String → Option String
  | p :: next :: rest =>
    if pyLower p = "terraform" then
      let cl := pyLower next
      if isKnownEnv cl then some cl
      else if envDirExclude.contains cl then detectEnvScan (next :: rest)
      else some cl
    else detectEnvScan (next :: rest)
  | _ => none

/-- See `detectEnvScan`; the trailing loop over lower-cased components. -/
def detectEnvFromParts (parts : List String) : Option String :=
  match detectEnvScan parts with
  | some e => some e
  | none => (parts.map pyLower).find? isKnownEnv

/-- `_apply_env_prefix_to_res_id(res_id, env)` (source lines 1245-1247):
`type.name ↦ type.env__name` (constructed ids always contain a dot). -/
def applyEnvPfxToResId (resId : String) (env : String) : String :=
  match splitOnce ['.'] resId.data with
  | some (t, n) => String.mk t ++ "." ++ env ++ "__" ++ String.mk n
  | none => resId

/-- `_module_prefix_for_resource(res_name)` (source lines 1156-1173):
peel an optional known-environment `env__`, then require a `module_…__`
base name; compose both when present. -/
def modulePfxForResource (resName : String) : Option String :=
  match splitOnce ['.'] resName.data with
  | none => none
  | some (_, rnameC) =>
    let rname := String.mk rnameC
    let peeled :=
      match splitOnce ['_', '_'] rnameC with
      | some (pre, rest) =>
        if isKnownEnv (String.mk pre) then (some (String.mk pre), String.mk rest)
        else ((none : Option String), rname)
      | none => (none, rname)
    let envPfx := peeled.1
    let baseName := peeled.2
    if "module_".data.isPrefixOf baseName.data && containsSub ['_', '_'] baseName.data then
      let modPfx :=
        match splitOnce ['_', '_'] baseName.data with
        | some (pre, _) => String.mk pre ++ "__"
        | none => baseName
      match envPfx with
      | some e => some (e ++ "__" ++ modPfx)
      | none => some modPfx
    else none

/-- Consecutive pairs of a list (`zip(ordered, ordered[1:])`). -/
def chainPairs (l : List String) : List (String × String) := l.zip l.tail

/-- `groups.setdefault(prefix, []).append(res)`. -/
def groupAdd (gs : List (String × List String)) (k : String) (r : String) :
    List (String × List String) :=
  if (dictGet gs k).isSome then
    gs.map (fun e => if e.1 = k then (e.1, e.2 ++ [r]) else e)
  else gs ++ [(k, [r])]

/-- `_fallback_chain_edges(resources)` (source lines 1283-1295): group ids
by module-prefix scope, sort each group, chain consecutive pairs. -/
def fallbackChainEdges (resources : List (String × Val)) : List (String × String) :=
  let groups := resources.foldl
    (fun gs e => groupAdd gs ((modulePfxForResource e.1).getD "") e.1) []
  groups.foldl
    (fun edges g => (chainPairs (pySorted g.2)).foldl setAdd edges) []

/-- `env_ref_maps.setdefault(env, {})[k] = v`. -/
def refMapAdd (maps : List (String × List (String × String))) (env k v : String) :
    List (String × List (String × String)) :=
  dictInsert maps env (dictInsert ((dictGet maps env).getD []) k v)

/-- One input file of a load: path components relative to the repo root,
`Path.suffix`, `Path.name`, the `_read_file_limited` text, and the external
parsers' results on that text (`none` models a raised parse error; for the
CloudFormation/Pulumi YAML loaders the value is the post-`or {}` document). -/
structure IaCFile where
  parts : List String
  ext : String
  fname : String
  text : String
  tfParsed : Option Val
  cfnParsed : Option Val
  pulumiParsed : Option Val

/-- Relative `Path.as_posix()`. -/
def joinPath : List String → String
  | [] => ""
  | [p] => p
  | p :: ps => p ++ "/" ++ joinPath ps

/-- External filesystem oracle for `_resolve_local_module_dir` plus the
sorted `*.tf`/`*.hcl` glob of the module directory: maps (including file's
path components, module `source`) to the module files (path components and
`hcl2.loads` result), or `none` when the source does not resolve to a local
directory inside the repo. -/
def ModuleResolver := List String → String → Option (List (List String × Option Val))

/-- Result of `_terraform_resources_from_files`. -/
structure TfLoadOut where
  resources : List (String × Val)
  moduleRefMaps : List (String × List (String × String))
  envRefMaps : List (String × List (String × String))

/-- Bookkeeping keys injected per resource (source lines 1338-1341). -/
def tfBookkeep (attrs : Val) (env : Option String) (logicalId srcFile : String) : Val :=
  let envVal := match env with | some e => Val.vStr e | none => Val.vNull
  valDictInsert
    (valDictInsert (valDictInsert attrs "_auto_arch_env" envVal)
      "_auto_arch_logical_id" (.vStr logicalId))
    "_auto_arch_source_file" (.vStr srcFile)

/-- `_terraform_resources_from_files(files, limits, repo_root)` (source
lines 1298-1382): detect environments, load per-file resources with
environment prefixes and remap tables, and expand local module inclusions
through the filesystem oracle. -/
def terraformResourcesFromFiles (files : List IaCFile) (resolve : ModuleResolver) :
    TfLoadOut :=
  let envsInFiles := files.foldl
    (fun acc f =>
      if f.ext = ".tf" || f.ext = ".hcl" then
        match normalizeEnvName (detectEnvFromParts f.parts) with
        | some e => setAdd acc e
        | none => acc
      else acc)
    []
  let envPfxEnabled := decide (1 < envsInFiles.length)
  files.foldl
    (fun st f =>
      if f.ext = ".tf" || f.ext = ".hcl" then
        let env0 := normalizeEnvName (detectEnvFromParts f.parts)
        let env := if envPfxEnabled ∧ env0 = none then some "shared" else env0
        match f.tfParsed with
        | none => st
        | some parsed =>
          let base := terraformResourcesFromHcl parsed ""
          let st := base.foldl
            (fun st e =>
              let resId := e.1
              let finalResId :=
                match env, envPfxEnabled with
                | some en, true => applyEnvPfxToResId resId en
                | _, _ => resId
              let attrsCopy := tfBookkeep e.2 env resId (joinPath f.parts)
              let st := { st with resources := dictInsert st.resources finalResId attrsCopy }
              match env, envPfxEnabled with
              | some en, true =>
                { st with envRefMaps := refMapAdd st.envRefMaps en resId finalResId }
              | _, _ => st)
            st
          (terraformModulesFromHcl parsed).foldl
            (fun st m =>
              match resolve f.parts m.2 with
              | none => st
              | some moduleFiles =>
                let modPfx := "module_" ++ m.1 ++ "__"
                let envModPfx :=
                  match env, envPfxEnabled with
                  | some en, true => en ++ "__" ++ modPfx
                  | _, _ => modPfx
                moduleFiles.foldl
                  (fun st mf =>
                    match mf.2 with
                    | none => st
                    | some parsedModule =>
                      let baseModuleResources := terraformResourcesFromHcl parsedModule ""
                      let moduleResources := terraformResourcesFromHcl parsedModule envModPfx
                      let st := { st with moduleRefMaps := (baseModuleResources.foldl
                        (fun mm r =>
                          match splitOnce ['.'] r.1.data with
                          | some (rt, rn) =>
                            refMapAdd mm envModPfx r.1
                              (String.mk rt ++ "." ++ envModPfx ++ String.mk rn)
                          | none => mm)
                        st.moduleRefMaps) }
                      moduleResources.foldl
                        (fun st e =>
                          let attrsCopy := tfBookkeep e.2 env e.1 (joinPath mf.1)
                          let st := { st with resources := dictInsert st.resources e.1 attrsCopy }
                          match env, envPfxEnabled with
                          | some en, true =>
                            { st with envRefMaps := refMapAdd st.envRefMaps en e.1 e.1 }
                          | _, _ => st)
                        st)
                  st)
            st
      else st)
    ⟨[], [], []⟩

/-- The direct-edge pass of `_static_terraform_graph` (source lines
3384-3401): extract references, remap through module and environment
tables, keep those resolving to a different existing id, and emit
`(referenced, referencing)` edges. -/
def terraformDirectEdges (allResources : List (String × Val))
    (moduleRefMaps envRefMaps : List (String × List (String × String))) :
    List (String × String) :=
  allResources.foldl
    (fun edges e =>
      let res := e.1
      let attrs := e.2
      let refs := setUnion [] (extractTfResourceRefs attrs)
      let refs :=
        match valGet attrs "depends_on" with
        | some .vNull => refs
        | some dep => setUnion refs (extractTfResourceRefs dep)
        | none => refs
      let refs :=
        match modulePfxForResource res with
        | some p =>
          if p ≠ "" then
            match dictGet moduleRefMaps p with
            | some rm => refs.foldl (fun acc r => setAdd acc ((dictGet rm r).getD r)) []
            | none => refs
          else refs
        | none => refs
      let env :=
        if valTruthy attrs then
          match valGet attrs "_auto_arch_env" with
          | some (.vStr s) => normalizeEnvName (some s)
          | _ => none
        else none
      let refs :=
        match env with
        | some en =>
          match dictGet envRefMaps en with
          | some em => refs.foldl (fun acc r => setAdd acc ((dictGet em r).getD r)) []
          | none => refs
        | none => refs
      (pySorted refs).foldl
        (fun es ref =>
          if (dictGet allResources ref).isSome ∧ ref ≠ res then setAdd es (ref, res)
          else es)
        edges)
    []

/-- Edge result of `_static_terraform_graph` (source lines 3384-3406):
direct edges, or the fallback chain when they are empty. -/
def terraformGraphEdges (allResources : List (String × Val))
    (moduleRefMaps envRefMaps : List (String × List (String × String))) :
    List (String × String) :=
  if terraformDirectEdges allResources moduleRefMaps envRefMaps = [] then
    fallbackChainEdges allResources
  else terraformDirectEdges allResources moduleRefMaps envRefMaps

/-- The first `TypeError`-raising block value over the whole Terraform
load, in the source's processing order (per root file: `resource` blocks,
then `module` blocks, then each resolved module file's `resource` blocks);
`none` when `_terraform_resources_from_files` completes.  The raise sits
outside the per-file `try` (which covers only the read and `hcl2.loads`,
source lines 1326-1330), so it aborts the whole Terraform attempt. -/
def tfFirstRaise (files : List IaCFile) (resolve : ModuleResolver) : Option Val :=
  files.foldl
    (fun acc f =>
      match acc with
      | some v => some v
      | none =>
        if f.ext = ".tf" || f.ext = ".hcl" then
          match f.tfParsed with
          | none => none
          | some parsed =>
            match tfParsedRaise parsed with
            | some v => some v
            | none =>
              (terraformModulesFromHcl parsed).foldl
                (fun acc2 m =>
                  match acc2 with
                  | some v => some v
                  | none =>
                    match resolve f.parts m.2 with
                    | none => none
                    | some moduleFiles =>
                      moduleFiles.foldl
                        (fun acc3 mf =>
                          match acc3 with
                          | some v => some v
                          | none =>
                            match mf.2 with
                            | none => none
                            | some pm => tfModuleParsedRaise pm)
                        none)
                none
        else none)
    none

/-- `_static_terraform_graph(files, limits)` (source lines 3366-3406) as a
fallible attempt: raises `TypeError` when a loaded document's
`resource`/`module` value is truthy but non-iterable (even though that
document parsed, and other documents may have supplied resources), and
`RuntimeError` when no Terraform resources were parsed. -/
def staticTerraformGraph (files : List IaCFile) (resolve : ModuleResolver) :
    Except String ((List (String × Val)) × List (String × String)) :=
  match tfFirstRaise files resolve with
  | some v => .error (notIterableMsg v)
  | none =>
    if (terraformResourcesFromFiles files resolve).resources = [] then
      .error "No Terraform resources parsed from the changed files."
    else
      .ok ((terraformResourcesFromFiles files resolve).resources,
        terraformGraphEdges (terraformResourcesFromFiles files resolve).resources
          (terraformResourcesFromFiles files resolve).moduleRefMaps
          (terraformResourcesFromFiles files resolve).envRefMaps)

/-! ### The CloudFormation graph builder (source lines 3696-3748) -/

/-- The file-name filter of the CloudFormation loaders. -/
def cfnNameMatches (fname : String) : Bool :=
  let n := pyLower fname
  pyEndsWith n ".cfn.yml" || pyEndsWith n ".cfn.yaml" || pyEndsWith n ".cfn.json" ||
    n = "template.yml" || n = "template.yaml"

/-- Successfully parsed CloudFormation templates, in file order. -/
def cfnTemplates (files : List IaCFile) : List Val :=
  files.foldl
    (fun ts f =>
      if cfnNameMatches f.fname then
        match f.cfnParsed with
        | some t => ts ++ [t]
        | none => ts
      else ts)
    []

/-- Resource collection (source lines 3725-3731): every `Resources` entry
whose body is a mapping, keyed by logical id.  On a non-mapping template
the source's `t.get("Resources")` raises `AttributeError` — that raising
case is factored into `firstNonMapping`, checked by
`staticCloudFormationGraph` before this collector's value is used; on a
list of mapping templates this collector is the loop's result. -/
def cfnCollectResources (templates : List Val) : List (String × Val) :=
  templates.foldl
    (fun res t =>
      match valGet t "Resources" with
      | some (.vDict entries) =>
        entries.foldl
          (fun res e =>
            match e.2 with
            | .vDict _ => dictInsert res e.1 e.2
            | _ => res)
          res
      | _ => res)
    []

/-- Edge pass (source lines 3736-3746): `Properties` references plus
`DependsOn` (string or list), filtered to distinct existing logical ids. -/
def cfnGraphEdges (resources : List (String × Val)) : List (String × String) :=
  resources.foldl
    (fun edges e =>
      let rid := e.1
      let refs := extractCfnRefs ((valGet e.2 "Properties").getD .vNull)
      let refs :=
        match valGet e.2 "DependsOn" with
        | some (.vStr s) => setAdd refs s
        | some (.vList xs) =>
          xs.foldl
            (fun a x => match x with | .vStr s => setAdd a s | _ => a)
            refs
        | _ => refs
      (pySorted refs).foldl
        (fun es ref =>
          if (dictGet resources ref).isSome ∧ ref ≠ rid then setAdd es (ref, rid)
          else es)
        edges)
    []

/-- `_static_cloudformation_graph(files, limits)` (source lines
3696-3748): raises when no template parsed, when a parsed document is not
a mapping (the collection loop's `t.get` at line 3727 — even though that
document parsed and others may hold resources), or when no resources were
collected. -/
def staticCloudFormationGraph (files : List IaCFile) :
    Except String ((List (String × Val)) × List (String × String)) :=
  if cfnTemplates files = [] then
    .error "No CloudFormation templates parsed from the changed files."
  else
    match firstNonMapping (cfnTemplates files) with
    | some t => .error (noGetAttrMsg t)
    | none =>
      if cfnCollectResources (cfnTemplates files) = [] then
        .error "No CloudFormation Resources found in parsed templates."
      else
        .ok (cfnCollectResources (cfnTemplates files),
          cfnGraphEdges (cfnCollectResources (cfnTemplates files)))

/-! ### The Bicep graph builder (source lines 3751-3822)

A best-effort line scanner: `resource <symbol> '<type>@<api>' = { ... }`
declarations, `parent: <symbol>` and (possibly multi-line)
`dependsOn: [ ... ]` references, with brace-depth tracking. -/

/-- Case-insensitive literal match (pattern given in lowercase), returning
the matched original characters and the remainder. -/
def matchCaseless : List Char → List Char → Option (List Char × List Char)
  | [], cs => some ([], cs)
  | _ :: _, [] => none
  | k :: ks, c :: cs =>
    if c.toLower = k then
      match matchCaseless ks cs with
      | some (m, r) => some (c :: m, r)
      | none => none
    else none

/-- `res_re.match(line)` for
`^\s*resource\s+([A-Za-z_][A-Za-z0-9_]*)\s+'([^']+)'` with `IGNORECASE`
(source lines 3761-3764): returns `(symbol, type literal)`. -/
def bicepResMatch (line : String) : Option (String × String) :=
  let cs := (splitRun isPySpace line.data).2
  match matchCaseless "resource".data cs with
  | none => none
  | some (_, r1) =>
    let (ws, r2) := splitRun isPySpace r1
    if ws = [] then none
    else
      match r2 with
      | c :: _ =>
        if c.isAlpha || c = '_' then
          let (sym, r3) := splitRun isIdentChar r2
          let (ws2, r4) := splitRun isPySpace r3
          if ws2 = [] then none
          else
            match r4 with
            | q :: r5 =>
              if q = squote then
                let (ty, r6) := splitRun (fun c => c ≠ squote) r5
                if ty ≠ [] && r6.head? = some squote then
                  some (String.mk sym, String.mk ty)
                else none
              else none
            | [] => none
        else none
      | [] => none

/-- `re.search(r"^\s*parent\s*:\s*", line)` (source line 3800): the `^`
anchors the search at the line start. -/
def isParentLine (line : String) : Bool :=
  let cs := (splitRun isPySpace line.data).2
  match matchCaseless "parent".data cs with
  | none => false
  | some (m, r) =>
    -- `parent` is matched case-sensitively (no IGNORECASE here)
    m = "parent".data && ((splitRun isPySpace r).2.head? = some ':')

/-- `re.search(r"^\s*dependsOn\s*:\s*\[", line)` (source line 3809). -/
def isDependsOnStart (line : String) : Bool :=
  let cs := (splitRun isPySpace line.data).2
  match matchCaseless "dependson".data cs with
  | none => false
  | some (m, r) =>
    m = "dependsOn".data &&
      (match (splitRun isPySpace r).2 with
       | ':' :: r2 => (splitRun isPySpace r2).2.head? = some '['
       | _ => false)

/-- States of the `\b([A-Za-z_][A-Za-z0-9_]*)\b` token scanner: a token is
a maximal `[\w]` run whose first character is not a digit (a run starting
with a digit has no word boundary inside and yields nothing). -/
inductive SymSt where
  | look
  | inBad
  | inGood (a : List Char)

/-- All `sym_ref_re.findall(line)` tokens, in order. -/
def symTokensAux : SymSt → List Char → List String
  | .inGood a, [] => [String.mk a]
  | _, [] => []
  | .look, c :: cs =>
    if isIdentChar c then
      if c.isDigit then symTokensAux .inBad cs else symTokensAux (.inGood [c]) cs
    else symTokensAux .look cs
  | .inBad, c :: cs =>
    if isIdentChar c then symTokensAux .inBad cs else symTokensAux .look cs
  | .inGood a, c :: cs =>
    if isIdentChar c then symTokensAux (.inGood (a ++ [c])) cs
    else String.mk a :: symTokensAux .look cs

/-- See `symTokensAux`. -/
def symTokens (line : String) : List String := symTokensAux .look line.data

/-- `sym_ref_re.search(after)`: the first token. -/
def firstSymToken (cs : List Char) : Option String := (symTokensAux .look cs).head?

/-- The Bicep resource value (source lines 3782-3787). -/
def bicepResVal (ty : String) : Val :=
  let t :=
    match splitOnce ['@'] ty.data with
    | some (pre, _) => String.mk pre
    | none => ty
  .vDict [("Type", .vStr t), ("RawType", .vStr ty),
          ("Provider", .vStr "azure"), ("Kind", .vStr "bicep")]

/-- Scanner state of `_static_bicep_graph`: accumulated resources and
edges, the current resource symbol, brace depth and the multi-line
`dependsOn` flag. -/
structure BicepSt where
  resources : List (String × Val)
  edges : List (String × String)
  cur : Option String
  depth : Int
  inDep : Bool

/-- `line.count("{") - line.count("}")`. -/
def braceDelta (line : String) : Int :=
  (line.data.countP (fun c => c = '\x7b') : Int) -
    (line.data.countP (fun c => c = '\x7d') : Int)

/-- The declaration match of one line (source lines 3778-3788). -/
def bicepDeclStep (st : BicepSt) (line : String) : BicepSt :=
  match bicepResMatch line with
  | some (sym, ty) =>
    { st with cur := some sym,
              resources := dictInsert st.resources sym (bicepResVal ty),
              depth := 0 }
  | none => st

/-- The `parent: <symbol>` handling (source lines 3799-3806). -/
def bicepParentStep (st : BicepSt) (cur : String) (line : String) : BicepSt :=
  if isParentLine line then
    match splitOnce [':'] line.data with
    | some (_, after) =>
      match firstSymToken after with
      | some parent =>
        if (dictGet st.resources parent).isSome ∧ parent ≠ cur then
          { st with edges := setAdd st.edges (parent, cur) }
        else st
      | none => st
    | none => st
  else st

/-- The reference fold inside a `dependsOn` block: each distinct token of
the line, sorted, checked against the current resources. -/
def bicepDependsFold (cur line : String) (st : BicepSt) : BicepSt :=
  (pySorted ((symTokens line).foldl setAdd [])).foldl
    (fun s ref =>
      if (dictGet s.resources ref).isSome ∧ ref ≠ cur then
        { s with edges := setAdd s.edges (ref, cur) }
      else s)
    st

/-- Close a `dependsOn` block when the line carries `]`. -/
def bicepDependsClose (line : String) (st : BicepSt) : BicepSt :=
  if line.data.contains ']' then { st with inDep := false } else st

/-- The `dependsOn: [ ... ]` handling (source lines 3808-3818). -/
def bicepDependsStep (st : BicepSt) (cur : String) (line : String) : BicepSt :=
  if isDependsOnStart line then
    bicepDependsClose line (bicepDependsFold cur line { st with inDep := true })
  else if st.inDep then
    bicepDependsClose line (bicepDependsFold cur line st)
  else st

/-- `bracket_depth += line.count("{") - line.count("}")` (source line 3791). -/
def bicepDepthStep (st : BicepSt) (line : String) : BicepSt :=
  { st with depth := st.depth + braceDelta line }

/-- Body-close check, `parent:` and `dependsOn:` handling of one line
(source lines 3792-3818). -/
def bicepBodySteps (st : BicepSt) (line : String) : BicepSt :=
  if st.cur.isSome ∧ st.depth ≤ 0 ∧ pyStartsWith (pyTrim line) "\x7d" then
    { st with cur := none }
  else
    match st.cur with
    | none => st
    | some cur => bicepDependsStep (bicepParentStep st cur line) cur line

/-- One line of the Bicep scan (source lines 3777-3818), in source order:
declaration match, depth update, body-close check, `parent:` reference,
`dependsOn:` block handling. -/
def bicepLine (st : BicepSt) (line : String) : BicepSt :=
  bicepBodySteps (bicepDepthStep (bicepDeclStep st line) line) line

/-- Scan one Bicep file's lines with fresh per-file symbol state. -/
def bicepFile (st : BicepSt) (text : String) : BicepSt :=
  (pySplitlines text).foldl bicepLine { st with cur := none, depth := 0, inDep := false }

/-- Invariant of the Bicep scan state: the current symbol (when set) is a
declared resource, and every recorded edge joins two distinct declared
resources. -/
def BInv (st : BicepSt) : Prop :=
  (∀ c, st.cur = some c → c ∈ dictKeys st.resources) ∧
  (∀ e ∈ st.edges, e.1 ∈ dictKeys st.resources ∧ e.2 ∈ dictKeys st.resources ∧ e.1 ≠ e.2)

/-- The whole-file-set Bicep scan. -/
def bicepScanFiles (files : List IaCFile) : BicepSt :=
  files.foldl
    (fun st f => if pyLower f.ext = ".bicep" then bicepFile st f.text else st)
    ⟨[], [], none, 0, false⟩

/-- `_static_bicep_graph(files, limits)` (source lines 3751-3822). -/
def staticBicepGraph (files : List IaCFile) :
    Except String ((List (String × Val)) × List (String × String)) :=
  if (bicepScanFiles files).resources = [] then
    .error "No Bicep resources parsed from the changed files."
  else .ok ((bicepScanFiles files).resources, (bicepScanFiles files).edges)

/-! ### The Pulumi YAML graph builder (source lines 3834-3898) -/

/-- The file-name filter of the Pulumi loader. -/
def pulumiNameMatches (fname : String) : Bool :=
  fname = "Pulumi.yaml" || fname = "Pulumi.yml" ||
    pyEndsWith (pyLower fname) ".pulumi.yaml" || pyEndsWith (pyLower fname) ".pulumi.yml"

/-- Successfully parsed Pulumi stacks, in file order. -/
def pulumiStacks (files : List IaCFile) : List Val :=
  files.foldl
    (fun ts f =>
      if pulumiNameMatches f.fname then
        match f.pulumiParsed with
        | some t => ts ++ [t]
        | none => ts
      else ts)
    []

/-- Resource collection (source lines 3858-3874): each `resources` entry
with a mapping body, wrapped with `Type`/`Provider`/`Kind`/`Body`.  On a
non-mapping stack document the source's `s.get("resources")` raises
`AttributeError` — factored into `firstNonMapping` and checked by
`staticPulumiYamlGraph`; on a list of mapping documents this collector is
the loop's result. -/
def pulumiCollectResources (stackDocs : List Val) : List (String × Val) :=
  stackDocs.foldl
    (fun res s =>
      match valGet s "resources" with
      | some (.vDict entries) =>
        entries.foldl
          (fun res e =>
            match e.2 with
            | .vDict _ =>
              let rtype := valGet e.2 "type"
              let provider :=
                match rtype with
                | some (.vStr t) =>
                  match splitOnce [':'] t.data with
                  | some (pre, _) => String.mk pre
                  | none => ""
                | _ => ""
              -- `(provider or "pulumi")`
              let provider := if provider = "" then "pulumi" else provider
              dictInsert res e.1
                (.vDict [("Type", rtype.getD .vNull), ("Provider", .vStr provider),
                         ("Kind", .vStr "pulumi"), ("Body", e.2)])
            | _ => res)
          res
      | _ => res)
    []

/-- Edge pass (source lines 3879-3896): `properties` expression references
plus `options.dependsOn` (string or list). -/
def pulumiGraphEdges (resources : List (String × Val)) : List (String × String) :=
  resources.foldl
    (fun edges e =>
      let name := e.1
      let b := (valGet e.2 "Body").getD (.vDict [])
      let b := if valTruthy b then b else Val.vDict []
      let dependsOn :=
        match valGet b "options" with
        | some o => valGet o "dependsOn"
        | none => none
      let refs := pulumiYamlExtractRefs ((valGet b "properties").getD .vNull)
      let refs :=
        match dependsOn with
        | some (.vStr s) => setAdd refs s
        | some (.vList xs) =>
          xs.foldl (fun a x => match x with | .vStr s => setAdd a s | _ => a) refs
        | _ => refs
      (pySorted refs).foldl
        (fun es ref =>
          if (dictGet resources ref).isSome ∧ ref ≠ name then setAdd es (ref, name)
          else es)
        edges)
    []

/-- `_static_pulumi_yaml_graph(files, limits)` (source lines 3834-3898). -/
def staticPulumiYamlGraph (files : List IaCFile) :
    Except String ((List (String × Val)) × List (String × String)) :=
  if pulumiStacks files = [] then
    .error "No Pulumi YAML stacks parsed from the changed files."
  else
    match firstNonMapping (pulumiStacks files) with
    | some t => .error (noGetAttrMsg t)
    | none =>
      if pulumiCollectResources (pulumiStacks files) = [] then
        .error "No Pulumi resources found in parsed YAML stacks."
      else
        .ok (pulumiCollectResources (pulumiStacks files),
          pulumiGraphEdges (pulumiCollectResources (pulumiStacks files)))

/-! ### Format dispatch (source lines 4299-4368)

`_static_markdown` tries Terraform, then CloudFormation, then Bicep, then
Pulumi YAML; each attempt's Mermaid serialization (an excluded collaborator)
re-runs the same collection logic on the same files and raises under the
same no-resources conditions as the graph builders modelled here.  When
every format fails, a fallback document is emitted whose reason is the
CloudFormation attempt's message (`str(exc) or default`). -/
inductive StaticResult where
  | diagram (kind : String) (resources : List (String × Val))
      (edges : List (String × String))
  | fallbackDoc (paths : List String) (reason : String)

/-- The dispatch of `_static_markdown` (source lines 4309-4368). -/
def staticMarkdownDispatch (files : List IaCFile) (resolve : ModuleResolver) :
    StaticResult :=
  match staticTerraformGraph files resolve with
  | .ok g => .diagram "terraform" g.1 g.2
  | .error _ =>
    match staticCloudFormationGraph files with
    | .ok g => .diagram "cloudformation" g.1 g.2
    | .error exc =>
      match staticBicepGraph files with
      | .ok g => .diagram "bicep" g.1 g.2
      | .error _ =>
        match staticPulumiYamlGraph files with
        | .ok g => .diagram "pulumi" g.1 g.2
        | .error _ =>
          .fallbackDoc (files.map (fun f => joinPath f.parts))
            (if exc = "" then "No supported IaC parsers produced a diagram." else exc)

/-! ### The Network Hierarchy Builder's attribute scans
(source lines 1752-1796) -/

/-- The subnet scan's key list (source line 1759). -/
def subnetVpcKeys : List String := ["vpc_id", "virtual_network_name", "vcn_id"]

/-- The plain-resource scan's key list (source line 1788). -/
def resourceSubnetKeys : List String := ["subnet_id", "subnet_ids", "subnet", "subnets"]

/-- `for ref in refs: if ref in known: … break` — the first extracted
reference that is a known id.  (In the source `refs` is a Python `set`
whose iteration order is hash-based; the embedding realizes it as the
first-insertion order of the scan.) -/
def firstKnownRef (refs : List String) (known : List String) : Option String :=
  refs.find? (fun r => known.contains r)

/-- The subnet→network attribute scan (source lines 1756-1768): for each
key in `subnetVpcKeys` holding a string value, the first known network
reference overwrites the previously found one (the `break` leaves only the
inner reference loop). -/
def subnetAttrScanVpc (subnetAttrs : Val) (vpcs : List String) : Option String :=
  subnetVpcKeys.foldl
    (fun acc key =>
      match valGet subnetAttrs key with
      | some (.vStr s) =>
        match firstKnownRef (extractTfResourceRefs (.vStr s)) vpcs with
        | some r => some r
        | none => acc
      | _ => acc)
    none

/-- The plain-resource→subnet attribute scan (source lines 1786-1794):
same overwrite structure over `resourceSubnetKeys`, scanning the whole
attribute value. -/
def resourceAttrScanSubnet (resAttrs : Val) (subnets : List String) : Option String :=
  resourceSubnetKeys.foldl
    (fun acc key =>
      match valGet resAttrs key with
      | some v =>
        match firstKnownRef (extractTfResourceRefs v) subnets with
        | some r => some r
        | none => acc
      | none => acc)
    none

/-! ### `_read_file_limited` (source lines 4536-4556)

The read itself is external I/O: its outcome is the input
(`Except` error = the raised exception's text, `ok` = the raw bytes).
`bytes.decode("utf-8", errors="replace")` never raises (so the fallback
`data.decode(errors="replace")` branch is dead), and is modelled by the
strict UTF-8 decoder below, one U+FFFD per invalid maximal subpart. -/

/-- The replacement character U+FFFD. -/
def replChar : Char := Char.ofNat 0xFFFD

/-- Is `b` a UTF-8 continuation byte? -/
def isContByte (b : Nat) : Bool := 0x80 ≤ b && b ≤ 0xBF

/-- Decode one non-ASCII sequence whose lead byte is `b` and whose
following bytes start `bs`: the decoded character (U+FFFD for an invalid
maximal subpart) and how many bytes of `bs` were consumed beyond the lead
byte. -/
def utf8Decode1 (b : Nat) (bs : List Nat) : Char × Nat :=
  if 0xC2 ≤ b && b ≤ 0xDF then
    match bs with
    | b1 :: _ =>
      if isContByte b1 then (Char.ofNat ((b - 0xC0) * 64 + (b1 - 0x80)), 1)
      else (replChar, 0)
    | [] => (replChar, 0)
  else if 0xE0 ≤ b && b ≤ 0xEF then
    let lo2 := if b = 0xE0 then 0xA0 else 0x80
    let hi2 := if b = 0xED then 0x9F else 0xBF
    match bs with
    | b1 :: bs1 =>
      if lo2 ≤ b1 && b1 ≤ hi2 then
        match bs1 with
        | b2 :: _ =>
          if isContByte b2 then
            (Char.ofNat ((b - 0xE0) * 4096 + (b1 - 0x80) * 64 + (b2 - 0x80)), 2)
          else (replChar, 1)
        | [] => (replChar, 1)
      else (replChar, 0)
    | [] => (replChar, 0)
  else if 0xF0 ≤ b && b ≤ 0xF4 then
    let lo2 := if b = 0xF0 then 0x90 else 0x80
    let hi2 := if b = 0xF4 then 0x8F else 0xBF
    match bs with
    | b1 :: bs1 =>
      if lo2 ≤ b1 && b1 ≤ hi2 then
        match bs1 with
        | b2 :: bs2 =>
          if isContByte b2 then
            match bs2 with
            | b3 :: _ =>
              if isContByte b3 then
                (Char.ofNat ((b - 0xF0) * 262144 + (b1 - 0x80) * 4096 +
                    (b2 - 0x80) * 64 + (b3 - 0x80)), 3)
              else (replChar, 2)
            | [] => (replChar, 2)
          else (replChar, 1)
        | [] => (replChar, 1)
      else (replChar, 0)
    | [] => (replChar, 0)
  else (replChar, 0)

/-- Strict UTF-8 decoding with `errors="replace"`. -/
def utf8DecodeReplace : List Nat → List Char
  | [] => []
  | b :: bs =>
    if b < 0x80 then Char.ofNat b :: utf8DecodeReplace bs
    else
      let (c, k) := utf8Decode1 b bs
      c :: utf8DecodeReplace (bs.drop k)
termination_by l => l.length
decreasing_by
  all_goals simp only [List.length_drop, List.length_cons]
  all_goals omega

/-- `text.replace("\r\n", "\n").replace("\r", "\n")` (source line 4554). -/
def normalizeNewlines : List Char → List Char
  | '\r' :: '\n' :: cs => '\n' :: normalizeNewlines cs
  | '\r' :: cs => '\n' :: normalizeNewlines cs
  | c :: cs => c :: normalizeNewlines cs
  | [] => []

/-! `_redact_likely_secrets` (source lines 4517-4533): substitution of
`(?ix)(password|passwd|secret|token|access[_-]?key|secret[_-]?key|private[_-]?key)\s*([:=])\s*("[^"]*"|'[^']*'|[^\s\n\r#]+)`
by `{key}{sep}"REDACTED"`. -/

/-- Match `stem[_-]?key` case-insensitively (`stem` in lowercase); the
optional separator cannot backtrack because `key` never matches at it. -/
def matchStemKey (stem : List Char) (cs : List Char) : Option (List Char × List Char) :=
  match matchCaseless stem cs with
  | none => none
  | some (m1, r1) =>
    match r1 with
    | c :: r2 =>
      if c = '_' || c = '-' then
        match matchCaseless "key".data r2 with
        | some (m2, r) => some (m1 ++ c :: m2, r)
        | none => none
      else
        match matchCaseless "key".data r1 with
        | some (m2, r) => some (m1 ++ m2, r)
        | none => none
    | [] => none

/-- The ordered alternatives of the secret-keyword group. -/
def secretKeywordAlts : List (List Char → Option (List Char × List Char)) :=
  [matchCaseless "password".data, matchCaseless "passwd".data,
   matchCaseless "secret".data, matchCaseless "token".data,
   matchStemKey "access".data, matchStemKey "secret".data,
   matchStemKey "private".data]

/-- The value group `("[^"]*"|'[^']*'|[^\s\n\r#]+)`: consumed length, with
the alternatives tried in order (an unclosed quote falls through to the
bare-word alternative). -/
def secretValueLen (cs : List Char) : Option Nat :=
  let bare :=
    let (run, _) := splitRun (fun c => !isPySpace c && c ≠ '#') cs
    if run = [] then none else some run.length
  match cs with
  | q :: rest =>
    if q = '"' then
      let (content, r2) := splitRun (fun c => c ≠ '"') rest
      if r2.head? = some '"' then some (content.length + 2) else bare
    else if q = squote then
      let (content, r2) := splitRun (fun c => c ≠ squote) rest
      if r2.head? = some squote then some (content.length + 2) else bare
    else bare
  | [] => none

/-- `\s*([:=])\s*` and the value group after a matched keyword: separator
character and consumed length. -/
def secretRest (cs : List Char) : Option (Char × Nat) :=
  let (ws1, r1) := splitRun isPySpace cs
  match r1 with
  | c :: r2 =>
    if c = ':' || c = '=' then
      let (ws2, r3) := splitRun isPySpace r2
      match secretValueLen r3 with
      | some n => some (c, ws1.length + 1 + ws2.length + n)
      | none => none
    else none
  | [] => none

/-- Try a full secret-assignment match at this position: matched keyword
text (original case), separator, and total consumed length.  Alternatives
are tried in regex order, with the later composite alternatives reached
when an earlier keyword match is not followed by `\s*[:=]` (regex
backtracking across the alternation). -/
def secretTryMatch (cs : List Char) : Option (List Char × Char × Nat) :=
  secretKeywordAlts.foldl
    (fun found alt =>
      match found with
      | some r => some r
      | none =>
        match alt cs with
        | some (m, r) =>
          match secretRest r with
          | some (sep, n) => some (m, sep, m.length + n)
          | none => none
        | none => none)
    none

/-- `_SECRET_ASSIGNMENT_RE.sub(repl, text)`: leftmost non-overlapping
matches replaced by `{key}{sep}"REDACTED"`.  A successful match always
consumes at least one character (the keyword is nonempty), so the
`max 1` below never changes the consumed count. -/
def redactScan (cs : List Char) : List Char :=
  match cs with
  | [] => []
  | c :: cs' =>
    match secretTryMatch (c :: cs') with
    | some (kw, sep, n) =>
      kw ++ sep :: '"' :: ("REDACTED".data ++ '"' :: redactScan ((c :: cs').drop (n.max 1)))
    | none => c :: redactScan cs'
termination_by cs.length
decreasing_by
  · have h1 : 1 ≤ Nat.max n 1 := Nat.le_max_right n 1
    simp only [List.length_drop, List.length_cons]
    omega
  · simp only [List.length_cons]
    omega

/-- `_redact_likely_secrets(text)`. -/
def redactLikelySecrets (text : List Char) : List Char := redactScan text

/-- The appended truncation marker (source line 4544). -/
def truncationMarker : String := "\n\n<TRUNCATED: file exceeded size limit>\n"

/-- Decode, normalize newlines and redact (source lines 4548-4556). -/
def processBytes (data : List Nat) : String :=
  String.mk (redactLikelySecrets (normalizeNewlines (utf8DecodeReplace data)))

/-- `_read_file_limited(path, max_bytes)` (source lines 4536-4556); the
`path.read_bytes()` outcome is the external input. -/
def readFileLimited (readResult : Except String (List Nat)) (maxBytes : Nat) : String :=
  match readResult with
  | .error exc => "<ERROR: failed to read file: " ++ exc ++ ">"
  | .ok data =>
    if data.length > maxBytes then
      processBytes (data.take maxBytes) ++ truncationMarker
    else processBytes data

/-! ### Claim-side (specification) readings, for comparison with the
source-derived definitions above -/

/-- Does a chain occurrence of `seg1.seg2` start exactly here?  The
specification's reading: the predecessor (if any) is not an identifier
character, `seg1` and `seg2` are nonempty identifier runs, and `seg2` is
complete (the following character, if any, is not an identifier character —
a trailing `.attr` continuation is allowed). -/
def chainHereB (seg1 seg2 : List Char) (prev : Option Char) (cs : List Char) : Bool :=
  (match prev with | some p => !isIdentChar p | none => true) &&
  seg1 ≠ [] && seg2 ≠ [] && seg1.all isIdentChar && seg2.all isIdentChar &&
  (seg1 ++ '.' :: seg2).isPrefixOf cs &&
  (match (cs.drop (seg1.length + 1 + seg2.length)).head? with
   | some c => !isIdentChar c
   | none => true)

/-- Some position of the string carries a chain occurrence of `seg1.seg2`. -/
def chainOccursAux (seg1 seg2 : List Char) (prev : Option Char) : List Char → Bool
  | [] => false
  | c :: cs =>
    chainHereB seg1 seg2 prev (c :: cs) || chainOccursAux seg1 seg2 (some c) cs

/-- The claim's "some string scalar contains a dot-separated identifier
chain starting with `seg1.seg2`". -/
def containsChainB (s seg1 seg2 : String) : Bool :=
  chainOccursAux seg1.data seg2.data none s.data

/-- One key's contribution to the subnet→network scan: a string-valued key
whose extracted references include a known network id. -/
def subnetKeyCand (attrs : Val) (vpcs : List String) (key : String) : Option String :=
  match valGet attrs key with
  | some (.vStr s) => firstKnownRef (extractTfResourceRefs (.vStr s)) vpcs
  | _ => none

/-- One key's contribution to the plain-resource→subnet scan. -/
def resourceKeyCand (attrs : Val) (subnets : List String) (key : String) : Option String :=
  match valGet attrs key with
  | some v => firstKnownRef (extractTfResourceRefs v) subnets
  | none => none

/-- The resource-map keys whose module-prefix scope is `p` (the claim-side
count for the fallback chain builder). -/
def keysWithScope (resources : List (String × Val)) (p : String) : List String :=
  (dictKeys resources).filter (fun r => (modulePfxForResource r).getD "" = p)

/-- The claim's reading of the tie-break: the first candidate in Tree
Walker traversal order over the scanned keys (keys in their fixed order,
references in scan order within each value). -/
def firstCandidateInWalkOrder (attrs : Val) (keys : List String) (known : List String)
    (strOnly : Bool) : Option String :=
  (keys.foldl
    (fun acc key =>
      match valGet attrs key with
      | some (.vStr s) => acc ++ extractTfResourceRefs (.vStr s)
      | some v => if strOnly then acc else acc ++ extractTfResourceRefs v
      | none => acc)
    []).find? (fun r => known.contains r)

/-! ### Concrete example inputs (used to instantiate the theorems below) -/

/-- A resolver with no local modules. -/
def noResolve : ModuleResolver := fun _ _ => none

/-- A parsed single-file Terraform document: a VPC and a subnet whose
`vpc_id` references it. -/
def exTfParsed : Val :=
  .vDict [("resource", .vList
    [.vDict [("aws_vpc", .vDict [("main", .vDict [("cidr_block", .vStr "10.0.0.0/16")])])],
     .vDict [("aws_subnet", .vDict [("s", .vDict [("vpc_id",
       .vStr "$\x7baws_vpc.main.id\x7d")])])]])]

/-- The single Terraform file of the simple example. -/
def exTfFile : IaCFile :=
  ⟨["main.tf"], ".tf", "main.tf", "", some exTfParsed, none, none⟩

/-- A `terraform/dev` file declaring `aws_vpc.main` and a subnet
referencing it. -/
def exDevFile : IaCFile :=
  ⟨["terraform", "dev", "main.tf"], ".tf", "main.tf", "", some exTfParsed, none, none⟩

/-- A `terraform/prod` file declaring `aws_vpc.main`. -/
def exProdFile : IaCFile :=
  ⟨["terraform", "prod", "main.tf"], ".tf", "main.tf", "",
    some (.vDict [("resource", .vList [.vDict [("aws_vpc", .vDict [("main", .vDict [])])]])]),
    none, none⟩

/-- Two referenceless resources in different module-prefix scopes. -/
def exTwoScopeRes : List (String × Val) :=
  [("aws_vpc.main", .vDict []), ("aws_s3_bucket.module_x__b", .vDict [])]

/-- A Bicep file whose `parent:` reference precedes the referenced
declaration. -/
def exBicepFwdFile : IaCFile :=
  ⟨["main.bicep"], ".bicep", "main.bicep",
    "resource appA " ++ ⟨[squote]⟩ ++ "T@v" ++ ⟨[squote]⟩ ++ " = \x7b\n  parent: depB\n\x7d\nresource depB "
      ++ ⟨[squote]⟩ ++ "T@v" ++ ⟨[squote]⟩ ++ " = \x7b\n\x7d\n",
    none, none, none⟩

/-- The same Bicep declarations in the reverse order. -/
def exBicepRevFile : IaCFile :=
  ⟨["main.bicep"], ".bicep", "main.bicep",
    "resource depB " ++ ⟨[squote]⟩ ++ "T@v" ++ ⟨[squote]⟩ ++ " = \x7b\n\x7d\nresource appA "
      ++ ⟨[squote]⟩ ++ "T@v" ++ ⟨[squote]⟩ ++ " = \x7b\n  parent: depB\n\x7d\n",
    none, none, none⟩

/-- A CloudFormation file whose template parses to a mapping with one
typed resource. -/
def exCfnGoodFile : IaCFile :=
  ⟨["app.cfn.yaml"], ".yaml", "app.cfn.yaml", "", none,
    some (.vDict [("Resources",
      .vDict [("Bucket", .vDict [("Type", .vStr "AWS::S3::Bucket")])])]),
    none⟩

/-- A `.cfn.json` file whose document is the JSON list `[]`: `json.loads`
succeeds (and the JSON branch appends it without the `or \x7b\x7d` guard of
the YAML branch), but the collection loop's `.get` then raises. -/
def exCfnListFile : IaCFile :=
  ⟨["broken.cfn.json"], ".json", "broken.cfn.json", "", none,
    some (.vList []), none⟩

/-- A CloudFormation template with one `Type`-less resource body. -/
def exCfnOrphanTemplate : Val :=
  .vDict [("Resources", .vDict
    [("Bucket", .vDict [("Type", .vStr "AWS::S3::Bucket")]),
     ("Orphan", .vDict [])])]

/-- Subnet attributes whose `vpc_id` and `vcn_id` both reference known
networks. -/
def exSubnetAttrs : Val :=
  .vDict [("vpc_id", .vStr "$\x7baws_vpc.a.id\x7d"),
          ("vcn_id", .vStr "$\x7boci_core_vcn.b.id\x7d")]

/-- A Terraform root file declaring one resource and one local module
inclusion. -/
def exModRootFile : IaCFile :=
  ⟨["main.tf"], ".tf", "main.tf", "",
    some (.vDict
      [("resource", .vList [.vDict [("aws_vpc", .vDict [("main", .vDict [])])]]),
       ("module", .vList [.vDict [("x", .vDict [("source", .vStr "./m")])]])]),
    none, none⟩

/-- The filesystem oracle resolving `./m` to one module file with one
resource. -/
def exModResolve : ModuleResolver := fun _ src =>
  if src = "./m" then
    some [(["m", "main.tf"],
      some (.vDict [("resource",
        .vList [.vDict [("aws_s3_bucket", .vDict [("b", .vDict [])])]])]))]
  else none

/-- Two referenceless resources in the same (empty) module scope. -/
def exFlatRes : List (String × Val) :=
  [("a.x", .vDict []), ("b.y", .vDict [])]

/-! ## Helper lemmas -/

theorem mem_setAdd [DecidableEq α] {xs : List α} {x a : α} :
    a ∈ setAdd xs x ↔ a ∈ xs ∨ a = x := by
  unfold setAdd
  split
  · constructor
    · exact fun h => Or.inl h
    · rintro (h | rfl)
      · exact h
      · assumption
  · simp [or_comm]

theorem mem_foldl_setAdd [DecidableEq α] (l : List α) (acc : List α) (a : α) :
    a ∈ l.foldl setAdd acc ↔ a ∈ acc ∨ a ∈ l := by
  induction l generalizing acc with
  | nil => simp
  | cons x xs ih =>
    simp only [List.foldl_cons, ih, mem_setAdd, List.mem_cons]
    tauto

theorem setAdd_subset [DecidableEq α] {xs ys : List α} {x : α}
    (h : ∀ a ∈ xs, a ∈ ys) (hx : x ∈ ys) : ∀ a ∈ setAdd xs x, a ∈ ys := by
  intro a ha
  rcases mem_setAdd.1 ha with h' | rfl
  · exact h a h'
  · exact hx

theorem dictGet_isSome_iff [DecidableEq κ] (kvs : List (κ × α)) (k : κ) :
    (dictGet kvs k).isSome ↔ k ∈ dictKeys kvs := by
  induction kvs with
  | nil => simp [dictGet, dictKeys]
  | cons e kvs ih =>
    obtain ⟨k', v⟩ := e
    by_cases h : k' = k
    · subst h; simp [dictGet, dictKeys]
    · simp [dictGet, dictKeys, h, ih, Ne.symm h]

theorem dictGet_eq_some_of_mem [DecidableEq κ] {kvs : List (κ × α)} {k : κ} {v : α}
    (hn : (dictKeys kvs).Nodup) (h : (k, v) ∈ kvs) : dictGet kvs k = some v := by
  induction kvs with
  | nil => simp at h
  | cons e kvs ih =>
    obtain ⟨k', v'⟩ := e
    simp only [dictKeys, List.map_cons, List.nodup_cons] at hn
    rcases List.mem_cons.1 h with he | hm
    · obtain ⟨h1, h2⟩ := Prod.mk.injEq .. ▸ he
      injection he with h1 h2
      subst h1; subst h2
      simp [dictGet]
    · have hk : k' ≠ k := by
        rintro rfl
        exact hn.1 (List.mem_map.2 ⟨(k', v), hm, rfl⟩)
      simp [dictGet, hk, ih hn.2 hm]

theorem dictKeys_map_preserve [DecidableEq κ] (kvs : List (κ × α)) (k : κ) (v : α) :
    dictKeys (kvs.map (fun e => if e.1 = k then (e.1, v) else e)) = dictKeys kvs := by
  induction kvs with
  | nil => rfl
  | cons e kvs ih =>
    by_cases h : e.1 = k
    · simp only [dictKeys, List.map_cons, h, if_pos] at ih ⊢
      simpa [dictKeys] using ih
    · simp only [dictKeys, List.map_cons, h, if_neg, not_false_iff] at ih ⊢
      simpa [dictKeys] using ih

theorem dictKeys_append (kvs₁ kvs₂ : List (κ × α)) :
    dictKeys (kvs₁ ++ kvs₂) = dictKeys kvs₁ ++ dictKeys kvs₂ :=
  List.map_append _ _ _

theorem mem_dictKeys_dictInsert [DecidableEq κ] (kvs : List (κ × α)) (k : κ) (v : α)
    (a : κ) : a ∈ dictKeys (dictInsert kvs k v) ↔ a ∈ dictKeys kvs ∨ a = k := by
  unfold dictInsert
  split
  · next hs =>
    have hk : k ∈ dictKeys kvs := (dictGet_isSome_iff kvs k).1 hs
    rw [dictKeys_map_preserve]
    constructor
    · exact Or.inl
    · rintro (h | rfl)
      · exact h
      · exact hk
  · rw [dictKeys_append]
    simp [dictKeys]

theorem nodup_dictKeys_dictInsert [DecidableEq κ] {kvs : List (κ × α)} (k : κ) (v : α)
    (hn : (dictKeys kvs).Nodup) : (dictKeys (dictInsert kvs k v)).Nodup := by
  unfold dictInsert
  split
  · next hs => simpa [dictKeys_map_preserve] using hn
  · next hs =>
    have hk : k ∉ dictKeys kvs := fun hm =>
      hs ((dictGet_isSome_iff kvs k).2 hm)
    rw [dictKeys_append]
    refine List.Nodup.append hn (by simp [dictKeys]) ?_
    intro a ha hb
    simp [dictKeys] at hb
    subst hb
    exact hk ha

theorem insertSorted_perm (x : String) (l : List String) :
    (insertSorted x l).Perm (x :: l) := by
  induction l with
  | nil => simp [insertSorted]
  | cons y ys ih =>
    unfold insertSorted
    split
    · exact ((ih.cons y).trans (List.Perm.swap x y ys)).symm.symm
    · exact List.Perm.refl _

theorem pySorted_perm (l : List String) : (pySorted l).Perm l := by
  induction l with
  | nil => simp [pySorted]
  | cons x xs ih =>
    exact (insertSorted_perm x (pySorted xs)).trans (ih.cons x)

theorem mem_pySorted {l : List String} {a : String} : a ∈ pySorted l ↔ a ∈ l :=
  (pySorted_perm l).mem_iff

theorem nodup_pySorted {l : List String} (h : l.Nodup) : (pySorted l).Nodup :=
  ((pySorted_perm l).nodup_iff).2 h

theorem length_pySorted (l : List String) : (pySorted l).length = l.length :=
  (pySorted_perm l).length_eq

theorem chainPairs_mem {l : List String} (hn : l.Nodup) {p : String × String}
    (hp : p ∈ chainPairs l) : p.1 ∈ l ∧ p.2 ∈ l ∧ p.1 ≠ p.2 := by
  induction l with
  | nil => simp [chainPairs] at hp
  | cons a t ih =>
    match t, hp with
    | [], hp => simp [chainPairs] at hp
    | b :: t, hp =>
      have hstep : chainPairs (a :: b :: t) = (a, b) :: chainPairs (b :: t) := rfl
      rw [hstep] at hp
      rcases List.mem_cons.1 hp with rfl | hm
      · refine ⟨by simp, by simp, ?_⟩
        intro h
        simp only [List.nodup_cons, List.mem_cons] at hn
        exact hn.1 (Or.inl h)
      · have := ih (List.nodup_cons.1 hn).2 hm
        exact ⟨List.mem_cons_of_mem _ this.1, List.mem_cons_of_mem _ this.2.1, this.2.2⟩

theorem chainPairs_ne_nil {l : List String} (h : 2 ≤ l.length) :
    chainPairs l ≠ [] := by
  match l, h with
  | a :: b :: t, _ =>
    have : chainPairs (a :: b :: t) = (a, b) :: chainPairs (b :: t) := rfl
    simp [this]

/-- The shared shape of every format's direct-edge accumulation: for each
resource, filter its (arbitrarily computed) references to distinct existing
ids and set-add `(ref, id)` edges. -/
theorem foldEdges_inv (resources : List (String × Val))
    (refsOf : (String × Val) → List String) :
    ∀ e ∈ resources.foldl
        (fun edges en => (pySorted (refsOf en)).foldl
          (fun es ref =>
            if (dictGet resources ref).isSome ∧ ref ≠ en.1 then setAdd es (ref, en.1)
            else es)
          edges)
        [],
      e.1 ∈ dictKeys resources ∧ e.2 ∈ dictKeys resources ∧ e.1 ≠ e.2 := by
  refine List.foldlRecOn
    (motive := fun es : List (String × String) => ∀ e ∈ es, e.1 ∈ dictKeys resources ∧ e.2 ∈ dictKeys resources ∧ e.1 ≠ e.2)
    resources _ [] (by intro e he; exact absurd he (List.not_mem_nil e)) ?_
  intro edges hedges en hen
  refine List.foldlRecOn
    (motive := fun es : List (String × String) => ∀ e ∈ es, e.1 ∈ dictKeys resources ∧ e.2 ∈ dictKeys resources ∧ e.1 ≠ e.2)
    _ _ edges hedges ?_
  intro es hes ref _
  split
  · next hcond =>
    intro e he
    rcases mem_setAdd.1 he with h | rfl
    · exact hes e h
    · exact ⟨(dictGet_isSome_iff ..).1 hcond.1,
        List.mem_map.2 ⟨en, hen, rfl⟩, hcond.2⟩
  · exact hes

/-- Edge invariant of the Terraform direct-edge pass. -/
theorem terraformDirectEdges_inv (res : List (String × Val))
    (mm em : List (String × List (String × String))) :
    ∀ e ∈ terraformDirectEdges res mm em,
      e.1 ∈ dictKeys res ∧ e.2 ∈ dictKeys res ∧ e.1 ≠ e.2 := by
  intro e he
  exact foldEdges_inv res _ e he

/-- Edge invariant of the CloudFormation edge pass. -/
theorem cfnGraphEdges_inv (res : List (String × Val)) :
    ∀ e ∈ cfnGraphEdges res,
      e.1 ∈ dictKeys res ∧ e.2 ∈ dictKeys res ∧ e.1 ≠ e.2 := by
  intro e he
  exact foldEdges_inv res _ e he

/-- Edge invariant of the Pulumi edge pass. -/
theorem pulumiGraphEdges_inv (res : List (String × Val)) :
    ∀ e ∈ pulumiGraphEdges res,
      e.1 ∈ dictKeys res ∧ e.2 ∈ dictKeys res ∧ e.1 ≠ e.2 := by
  intro e he
  exact foldEdges_inv res _ e he

theorem dictGet_some_mem [DecidableEq κ] {kvs : List (κ × α)} {k : κ} {v : α}
    (h : dictGet kvs k = some v) : (k, v) ∈ kvs := by
  induction kvs with
  | nil => simp [dictGet] at h
  | cons e kvs ih =>
    obtain ⟨k', v'⟩ := e
    by_cases hk : k' = k
    · subst hk
      simp only [dictGet, if_pos] at h
      injection h with h
      subst h
      exact List.mem_cons_self _ _
    · simp only [dictGet, hk, if_neg, not_false_iff] at h
      exact List.mem_cons_of_mem _ (ih h)

theorem dictGet_map_update [DecidableEq κ] (gs : List (κ × List α)) (k : κ) (r : α)
    (p : κ) :
    dictGet (gs.map (fun e => if e.1 = k then (e.1, e.2 ++ [r]) else e)) p =
      match dictGet gs p with
      | some l => if p = k then some (l ++ [r]) else some l
      | none => none := by
  induction gs with
  | nil => simp [dictGet]
  | cons e gs ih =>
    obtain ⟨k', l'⟩ := e
    rw [List.map_cons]
    by_cases h1 : k' = k
    · subst h1
      have hf : (if (k', l').1 = k' then ((k', l').1, (k', l').2 ++ [r]) else (k', l'))
          = (k', l' ++ [r]) := by simp
      rw [hf]
      by_cases h2 : k' = p
      · subst h2
        simp [dictGet]
      · simp only [dictGet, h2, if_neg, not_false_iff, ih]
    · have hf : (if (k', l').1 = k then ((k', l').1, (k', l').2 ++ [r]) else (k', l'))
          = (k', l') := by simp [h1]
      rw [hf]
      by_cases h2 : k' = p
      · subst h2
        have hL : dictGet ((k', l') ::
            List.map (fun e : κ × List α => if e.1 = k then (e.1, e.2 ++ [r]) else e) gs) k'
            = some l' := by simp [dictGet]
        have hR : dictGet ((k', l') :: gs) k' = some l' := by simp [dictGet]
        rw [hL, hR]
        show some l' = if k' = k then some (l' ++ [r]) else some l'
        rw [if_neg h1]
      · simp only [dictGet, h2, if_neg, not_false_iff, ih]

theorem dictGet_append_single [DecidableEq κ] (gs : List (κ × α)) (k : κ) (v : α)
    (p : κ) :
    dictGet (gs ++ [(k, v)]) p =
      match dictGet gs p with
      | some w => some w
      | none => if p = k then some v else none := by
  induction gs with
  | nil =>
    by_cases h : k = p
    · subst h; simp [dictGet]
    · simp only [List.nil_append, dictGet]
      rw [if_neg h, if_neg (fun hh => h (Eq.symm hh))]
  | cons e gs ih =>
    obtain ⟨k', v'⟩ := e
    by_cases h2 : k' = p
    · subst h2; simp [dictGet]
    · simp [dictGet, h2, ih]

theorem dictGet_groupAdd (gs : List (String × List String)) (k r p : String) :
    dictGet (groupAdd gs k r) p =
      if p = k then some (((dictGet gs k).getD []) ++ [r]) else dictGet gs p := by
  unfold groupAdd
  split
  · next hs =>
    obtain ⟨l, hl⟩ := Option.isSome_iff_exists.1 hs
    rw [dictGet_map_update]
    by_cases hp : p = k
    · subst hp
      simp [hl]
    · cases h : dictGet gs p <;> simp [hp, h]
  · next hs =>
    have hk : dictGet gs k = none := Option.not_isSome_iff_eq_none.1 hs
    rw [dictGet_append_single]
    by_cases hp : p = k
    · subst hp
      simp [hk]
    · cases h : dictGet gs p <;> simp [hp, h]

/-- The per-scope group lists built by the fallback chain builder hold
exactly the keys of that scope, in input order. -/
theorem groupsFold_lookup (l : List (String × Val))
    (acc : List (String × List String)) (p : String) :
    dictGet (l.foldl (fun gs e => groupAdd gs ((modulePfxForResource e.1).getD "") e.1) acc) p
      = match dictGet acc p with
        | some g =>
          some (g ++ (l.map Prod.fst).filter (fun r => (modulePfxForResource r).getD "" = p))
        | none =>
          if (l.map Prod.fst).filter (fun r => (modulePfxForResource r).getD "" = p) = []
          then none
          else some ((l.map Prod.fst).filter (fun r => (modulePfxForResource r).getD "" = p)) := by
  induction l generalizing acc with
  | nil =>
    cases h : dictGet acc p <;> simp [h]
  | cons e l ih =>
    rw [List.foldl_cons, ih]
    rw [dictGet_groupAdd]
    by_cases hp : p = (modulePfxForResource e.1).getD ""
    · rw [if_pos hp]
      have hFc : (List.map Prod.fst (e :: l)).filter
          (fun r => (modulePfxForResource r).getD "" = p) =
          e.1 :: (List.map Prod.fst l).filter (fun r => (modulePfxForResource r).getD "" = p) := by
        simp [List.filter_cons, hp.symm]
      rw [hFc]
      cases h : dictGet acc p
      · rw [hp] at h
        simp [h]
      · rw [hp] at h
        simp [h]
    · rw [if_neg hp]
      have hnp : ¬((modulePfxForResource e.1).getD "" = p) := fun hh => hp hh.symm
      have hFc : (List.map Prod.fst (e :: l)).filter
          (fun r => (modulePfxForResource r).getD "" = p) =
          (List.map Prod.fst l).filter (fun r => (modulePfxForResource r).getD "" = p) := by
        simp [List.filter_cons, hnp]
      rw [hFc]

/-- Mapping a value-update over an association list keeps its keys. -/
theorem dictKeys_map_update_keys (gs : List (String × List String)) (k r : String) :
    dictKeys (gs.map (fun e => if e.1 = k then (e.1, e.2 ++ [r]) else e)) = dictKeys gs := by
  induction gs with
  | nil => rfl
  | cons e gs ih =>
    by_cases h : e.1 = k
    · simp only [dictKeys, List.map_cons, h, if_pos] at ih ⊢
      simpa [dictKeys] using ih
    · simp only [dictKeys, List.map_cons, h, if_neg, not_false_iff] at ih ⊢
      simpa [dictKeys] using ih

/-- `groupAdd` preserves the group keys' distinctness. -/
theorem nodup_dictKeys_groupAdd {gs : List (String × List String)} (k r : String)
    (hn : (dictKeys gs).Nodup) : (dictKeys (groupAdd gs k r)).Nodup := by
  unfold groupAdd
  split
  · next hs =>
    simpa [dictKeys_map_update_keys] using hn
  · next hs =>
    have hk : k ∉ dictKeys gs := fun hm => hs ((dictGet_isSome_iff gs k).2 hm)
    rw [dictKeys_append]
    refine List.Nodup.append hn (by simp [dictKeys]) ?_
    intro a ha hb
    simp [dictKeys] at hb
    subst hb
    exact hk ha

/-- Keys of the built group map are distinct. -/
theorem nodup_groupsFold (l : List (String × Val)) :
    (dictKeys (l.foldl
      (fun gs e => groupAdd gs ((modulePfxForResource e.1).getD "") e.1) [])).Nodup := by
  refine List.foldlRecOn
    (motive := fun gs : List (String × List String) => (dictKeys gs).Nodup)
    l _ [] (by simp [dictKeys]) ?_
  intro gs hgs e _
  exact nodup_dictKeys_groupAdd _ _ hgs

/-- Monotonicity of set-add accumulation. -/
theorem mem_foldl_setAdd_of_mem [DecidableEq α] {l : List α} {acc : List α} {a : α}
    (h : a ∈ acc) : a ∈ l.foldl setAdd acc :=
  (mem_foldl_setAdd l acc a).2 (Or.inl h)

/-- An element of one group's chain ends up in the final fallback edge set. -/
theorem mem_fallback_fold {gs : List (String × List String)}
    {acc : List (String × String)} {entry : String × List String}
    {pr : String × String} (he : entry ∈ gs) (hp : pr ∈ chainPairs (pySorted entry.2)) :
    pr ∈ gs.foldl (fun edges g => (chainPairs (pySorted g.2)).foldl setAdd edges) acc := by
  induction gs generalizing acc with
  | nil => simp at he
  | cons g gs ih =>
    rcases List.mem_cons.1 he with rfl | hm
    · rw [List.foldl_cons]
      have : pr ∈ (chainPairs (pySorted entry.2)).foldl setAdd acc :=
        (mem_foldl_setAdd _ _ _).2 (Or.inr hp)
      exact List.foldlRecOn
        (motive := fun es : List (String × String) => pr ∈ es)
        gs _ _ this (fun es hes g _ => mem_foldl_setAdd_of_mem hes)
    · exact ih hm

/-- Edge invariant of the fallback chain builder (distinct resource keys,
as in every Python dict). -/
theorem fallbackChainEdges_inv (res : List (String × Val))
    (hn : (dictKeys res).Nodup) :
    ∀ e ∈ fallbackChainEdges res,
      e.1 ∈ dictKeys res ∧ e.2 ∈ dictKeys res ∧ e.1 ≠ e.2 := by
  unfold fallbackChainEdges
  refine List.foldlRecOn
    (motive := fun es : List (String × String) =>
      ∀ e ∈ es, e.1 ∈ dictKeys res ∧ e.2 ∈ dictKeys res ∧ e.1 ≠ e.2)
    _ _ [] (by intro e he; exact absurd he (List.not_mem_nil e)) ?_
  intro edges hedges entry hentry
  refine List.foldlRecOn
    (motive := fun es : List (String × String) =>
      ∀ e ∈ es, e.1 ∈ dictKeys res ∧ e.2 ∈ dictKeys res ∧ e.1 ≠ e.2)
    _ _ edges hedges ?_
  intro es hes pr hpr
  intro e he
  rcases mem_setAdd.1 he with h | rfl
  · exact hes e h
  · -- the entry's list is the filter of the resource keys of its scope
    have hget : dictGet (res.foldl
        (fun gs e => groupAdd gs ((modulePfxForResource e.1).getD "") e.1) []) entry.1
        = some entry.2 :=
      dictGet_eq_some_of_mem (nodup_groupsFold res) (by exact hentry)
    rw [groupsFold_lookup] at hget
    simp only [dictGet] at hget
    have hfil : entry.2 = (List.map Prod.fst res).filter
        (fun r => (modulePfxForResource r).getD "" = entry.1) := by
      by_cases hF : (List.map Prod.fst res).filter
          (fun r => (modulePfxForResource r).getD "" = entry.1) = []
      · rw [if_pos hF] at hget
        cases hget
      · rw [if_neg hF] at hget
        injection hget with hget
        exact hget.symm
    have hsub : ∀ a ∈ entry.2, a ∈ dictKeys res := by
      intro a ha
      rw [hfil] at ha
      exact List.mem_of_mem_filter ha
    have hnd : entry.2.Nodup := by
      rw [hfil]
      exact hn.filter _
    have := chainPairs_mem (nodup_pySorted hnd) hpr
    exact ⟨hsub _ (mem_pySorted.1 this.1), hsub _ (mem_pySorted.1 this.2.1), this.2.2⟩

/-- When some scope holds at least two resources, the fallback chain is
nonempty. -/
theorem fallbackChainEdges_ne_nil (res : List (String × Val)) (p : String)
    (h2 : 2 ≤ (keysWithScope res p).length) : fallbackChainEdges res ≠ [] := by
  have hF : keysWithScope res p =
      (List.map Prod.fst res).filter (fun r => (modulePfxForResource r).getD "" = p) := rfl
  have hne : (List.map Prod.fst res).filter
      (fun r => (modulePfxForResource r).getD "" = p) ≠ [] := by
    intro h
    rw [hF, h] at h2
    simp at h2
  have hget : dictGet (res.foldl
      (fun gs e => groupAdd gs ((modulePfxForResource e.1).getD "") e.1) []) p
      = some ((List.map Prod.fst res).filter
        (fun r => (modulePfxForResource r).getD "" = p)) := by
    rw [groupsFold_lookup]
    simp only [dictGet]
    rw [if_neg hne]
  have hmem := dictGet_some_mem hget
  have hlen : 2 ≤ (pySorted ((List.map Prod.fst res).filter
      (fun r => (modulePfxForResource r).getD "" = p))).length := by
    rw [length_pySorted]
    exact hF ▸ h2
  have hch := chainPairs_ne_nil hlen
  obtain ⟨pr, hpr⟩ := List.exists_mem_of_ne_nil _ hch
  have : pr ∈ fallbackChainEdges res := by
    unfold fallbackChainEdges
    exact mem_fallback_fold hmem hpr
  intro h0
  rw [h0] at this
  exact absurd this (List.not_mem_nil pr)

/-- The declaration step preserves the scan invariant and grows the keys. -/
theorem bicepDeclStep_pres (st : BicepSt) (line : String) (h : BInv st) :
    BInv (bicepDeclStep st line) ∧
      ∀ a ∈ dictKeys st.resources, a ∈ dictKeys (bicepDeclStep st line).resources := by
  unfold bicepDeclStep
  cases hd : bicepResMatch line with
  | none => exact ⟨h, fun a ha => ha⟩
  | some p =>
    obtain ⟨sym, ty⟩ := p
    refine ⟨⟨?_, ?_⟩, ?_⟩
    · intro c hc
      injection hc with hc
      subst hc
      exact (mem_dictKeys_dictInsert ..).2 (Or.inr rfl)
    · intro e he
      obtain ⟨h1, h2, h3⟩ := h.2 e he
      exact ⟨(mem_dictKeys_dictInsert ..).2 (Or.inl h1),
        (mem_dictKeys_dictInsert ..).2 (Or.inl h2), h3⟩
    · intro a ha
      exact (mem_dictKeys_dictInsert ..).2 (Or.inl ha)

/-- The parent step preserves the invariant: it only adds a
`(parent, cur)` edge after checking `parent` against the current map. -/
theorem bicepParentStep_pres (st : BicepSt) (cur line : String) (h : BInv st)
    (hcur : cur ∈ dictKeys st.resources) :
    BInv (bicepParentStep st cur line) ∧
      (bicepParentStep st cur line).resources = st.resources := by
  unfold bicepParentStep
  split
  · split
    · split
      · split
        · next hcond =>
          refine ⟨⟨h.1, ?_⟩, rfl⟩
          intro e he
          rcases mem_setAdd.1 he with h2 | rfl
          · exact h.2 e h2
          · exact ⟨(dictGet_isSome_iff ..).1 hcond.1, hcur, hcond.2⟩
        · exact ⟨h, rfl⟩
      · exact ⟨h, rfl⟩
    · exact ⟨h, rfl⟩
  · exact ⟨h, rfl⟩

/-- The dependsOn reference fold preserves the invariant and the map. -/
theorem bicepDependsFold_pres (cur line : String) (st : BicepSt) (h : BInv st)
    (hcur : cur ∈ dictKeys st.resources) :
    BInv (bicepDependsFold cur line st) ∧
      (bicepDependsFold cur line st).resources = st.resources := by
  unfold bicepDependsFold
  refine List.foldlRecOn
    (motive := fun s : BicepSt => BInv s ∧ s.resources = st.resources)
    _ _ st ⟨h, rfl⟩ ?_
  intro s hs ref _
  by_cases hcond : (dictGet s.resources ref).isSome = true ∧ ref ≠ cur
  · rw [if_pos hcond]
    refine ⟨⟨hs.1.1, ?_⟩, hs.2⟩
    intro e he
    rcases mem_setAdd.1 he with h2 | rfl
    · exact hs.1.2 e h2
    · exact ⟨(dictGet_isSome_iff ..).1 hcond.1, hs.2 ▸ hcur, hcond.2⟩
  · rw [if_neg hcond]
    exact hs

/-- Closing a dependsOn block preserves the invariant and the map. -/
theorem bicepDependsClose_pres (line : String) (st : BicepSt) (h : BInv st) :
    BInv (bicepDependsClose line st) ∧
      (bicepDependsClose line st).resources = st.resources := by
  unfold bicepDependsClose
  by_cases hc : line.data.contains ']' = true
  · rw [if_pos hc]
    exact ⟨⟨h.1, h.2⟩, rfl⟩
  · rw [if_neg hc]
    exact ⟨h, rfl⟩

/-- The dependsOn step preserves the invariant and the map. -/
theorem bicepDependsStep_pres (st : BicepSt) (cur line : String) (h : BInv st)
    (hcur : cur ∈ dictKeys st.resources) :
    BInv (bicepDependsStep st cur line) ∧
      (bicepDependsStep st cur line).resources = st.resources := by
  unfold bicepDependsStep
  by_cases hdep : isDependsOnStart line = true
  · rw [if_pos hdep]
    have h1 : BInv { st with inDep := true } := ⟨h.1, h.2⟩
    obtain ⟨h2, hr2⟩ := bicepDependsFold_pres cur line _ h1 hcur
    obtain ⟨h3, hr3⟩ := bicepDependsClose_pres line _ h2
    exact ⟨h3, by rw [hr3, hr2]⟩
  · rw [if_neg hdep]
    by_cases hin : st.inDep = true
    · rw [if_pos hin]
      obtain ⟨h2, hr2⟩ := bicepDependsFold_pres cur line _ h hcur
      obtain ⟨h3, hr3⟩ := bicepDependsClose_pres line _ h2
      exact ⟨h3, by rw [hr3, hr2]⟩
    · rw [if_neg hin]
      exact ⟨h, rfl⟩

/-- One scanned line preserves the invariant and grows the key set. -/
theorem bicepLine_pres (st : BicepSt) (line : String) (h : BInv st) :
    BInv (bicepLine st line) ∧
      ∀ a ∈ dictKeys st.resources, a ∈ dictKeys (bicepLine st line).resources := by
  unfold bicepLine bicepBodySteps
  obtain ⟨h1, hgrow⟩ := bicepDeclStep_pres st line h
  have h2 : BInv (bicepDepthStep (bicepDeclStep st line) line) := ⟨h1.1, h1.2⟩
  have hres2 : (bicepDepthStep (bicepDeclStep st line) line).resources
      = (bicepDeclStep st line).resources := rfl
  split
  · exact ⟨⟨(by intro c hc; cases hc), h2.2⟩, hgrow⟩
  · cases hc : (bicepDepthStep (bicepDeclStep st line) line).cur with
    | none => exact ⟨h2, hgrow⟩
    | some cur =>
      have hcur : cur ∈ dictKeys (bicepDepthStep (bicepDeclStep st line) line).resources :=
        h2.1 cur hc
      obtain ⟨h3, hr3⟩ := bicepParentStep_pres _ cur line h2 hcur
      obtain ⟨h4, hr4⟩ := bicepDependsStep_pres _ cur line h3 (hr3 ▸ hcur)
      refine ⟨h4, ?_⟩
      intro a ha
      rw [hr4, hr3, hres2]
      exact hgrow a ha

/-- The whole-file-set scan satisfies the invariant. -/
theorem bicepScanFiles_inv (files : List IaCFile) : BInv (bicepScanFiles files) := by
  unfold bicepScanFiles
  refine List.foldlRecOn (motive := BInv) files _ _ ?_ ?_
  · exact ⟨(by intro c hc; cases hc), (by intro e he; exact absurd he (List.not_mem_nil e))⟩
  · intro st hst f _
    by_cases hb : pyLower f.ext = ".bicep"
    · rw [if_pos hb]
      unfold bicepFile
      refine List.foldlRecOn (motive := BInv) _ _ _ ⟨?_, hst.2⟩ ?_
      · intro c hc; cases hc
      · intro s hs l _
        exact (bicepLine_pres s l hs).1
    · rw [if_neg hb]
      exact hst

/-- The Terraform load's resource keys are distinct (they are the keys of
a Python dict filled by assignment). -/
theorem tfLoad_keys_nodup (files : List IaCFile) (resolve : ModuleResolver) :
    (dictKeys (terraformResourcesFromFiles files resolve).resources).Nodup := by
  unfold terraformResourcesFromFiles
  refine List.foldlRecOn
    (motive := fun st : TfLoadOut => (dictKeys st.resources).Nodup)
    _ _ _ (by simp [dictKeys]) ?_
  intro st hst f _
  split
  · split
    · exact hst
    · refine List.foldlRecOn
        (motive := fun st : TfLoadOut => (dictKeys st.resources).Nodup)
        _ _ _ ?_ ?_
      · refine List.foldlRecOn
          (motive := fun st : TfLoadOut => (dictKeys st.resources).Nodup)
          _ _ _ hst ?_
        intro st h e _
        split <;> exact nodup_dictKeys_dictInsert _ _ h
      · intro st h m _
        split
        · exact h
        · refine List.foldlRecOn
            (motive := fun st : TfLoadOut => (dictKeys st.resources).Nodup)
            _ _ _ h ?_
          intro st h mf _
          split
          · exact h
          · refine List.foldlRecOn
              (motive := fun st : TfLoadOut => (dictKeys st.resources).Nodup)
              _ _ _ (by exact h) ?_
            intro st h e _
            split <;> first
              | exact nodup_dictKeys_dictInsert _ _ h
              | (split <;> exact nodup_dictKeys_dictInsert _ _ h)
  · exact hst

/-- Edge invariant of the whole Bicep graph builder. -/
theorem staticBicepGraph_inv (files : List IaCFile)
    (res : List (String × Val)) (edges : List (String × String))
    (hok : staticBicepGraph files = .ok (res, edges)) :
    ∀ e ∈ edges, e.1 ∈ dictKeys res ∧ e.2 ∈ dictKeys res ∧ e.1 ≠ e.2 := by
  have hfold := bicepScanFiles_inv files
  unfold staticBicepGraph at hok
  split at hok
  · cases hok
  · injection hok with hok
    injection hok with h1 h2
    subst h1
    subst h2
    exact hfold.2

/-- Edge invariant of the Terraform edge result, fallback path included. -/
theorem terraformGraphEdges_inv (res : List (String × Val))
    (mm em : List (String × List (String × String)))
    (hn : (dictKeys res).Nodup) :
    ∀ e ∈ terraformGraphEdges res mm em,
      e.1 ∈ dictKeys res ∧ e.2 ∈ dictKeys res ∧ e.1 ≠ e.2 := by
  unfold terraformGraphEdges
  split
  · exact fallbackChainEdges_inv res hn
  · exact terraformDirectEdges_inv res mm em

/-- Edge invariant of the whole Terraform graph builder. -/
theorem staticTerraformGraph_inv (files : List IaCFile) (resolve : ModuleResolver)
    (res : List (String × Val)) (edges : List (String × String))
    (hok : staticTerraformGraph files resolve = .ok (res, edges)) :
    ∀ e ∈ edges, e.1 ∈ dictKeys res ∧ e.2 ∈ dictKeys res ∧ e.1 ≠ e.2 := by
  unfold staticTerraformGraph at hok
  split at hok
  · cases hok
  · split at hok
    · cases hok
    · injection hok with hok
      injection hok with h1 h2
      subst h1
      subst h2
      exact terraformGraphEdges_inv _ _ _ (tfLoad_keys_nodup files resolve)

/-- Edge invariant of the whole CloudFormation graph builder. -/
theorem staticCloudFormationGraph_inv (files : List IaCFile)
    (res : List (String × Val)) (edges : List (String × String))
    (hok : staticCloudFormationGraph files = .ok (res, edges)) :
    ∀ e ∈ edges, e.1 ∈ dictKeys res ∧ e.2 ∈ dictKeys res ∧ e.1 ≠ e.2 := by
  unfold staticCloudFormationGraph at hok
  split at hok
  · cases hok
  · split at hok
    · cases hok
    · split at hok
      · cases hok
      · injection hok with hok
        injection hok with h1 h2
        subst h1
        subst h2
        exact cfnGraphEdges_inv _

/-- Edge invariant of the whole Pulumi YAML graph builder. -/
theorem staticPulumiYamlGraph_inv (files : List IaCFile)
    (res : List (String × Val)) (edges : List (String × String))
    (hok : staticPulumiYamlGraph files = .ok (res, edges)) :
    ∀ e ∈ edges, e.1 ∈ dictKeys res ∧ e.2 ∈ dictKeys res ∧ e.1 ≠ e.2 := by
  unfold staticPulumiYamlGraph at hok
  split at hok
  · cases hok
  · split at hok
    · cases hok
    · split at hok
      · cases hok
      · injection hok with hok
        injection hok with h1 h2
        subst h1
        subst h2
        exact pulumiGraphEdges_inv _

/-! ## Claim theorems -/

/-- C1: for every edge `(source, target)` in the edge set returned by any
format's graph builder — Terraform (fallback path included),
CloudFormation, Bicep, Pulumi YAML — both `source` and `target` are keys
of the resource map returned alongside it, and `source ≠ target`. -/
theorem edges_endpoints_exist_and_no_self_edges :
    (∀ (files : List IaCFile) (resolve : ModuleResolver)
      (res : List (String × Val)) (edges : List (String × String)),
      staticTerraformGraph files resolve = .ok (res, edges) →
      ∀ e ∈ edges, e.1 ∈ dictKeys res ∧ e.2 ∈ dictKeys res ∧ e.1 ≠ e.2)
    ∧ (∀ (files : List IaCFile) (res : List (String × Val))
        (edges : List (String × String)),
        staticCloudFormationGraph files = .ok (res, edges) →
        ∀ e ∈ edges, e.1 ∈ dictKeys res ∧ e.2 ∈ dictKeys res ∧ e.1 ≠ e.2)
    ∧ (∀ (files : List IaCFile) (res : List (String × Val))
        (edges : List (String × String)),
        staticBicepGraph files = .ok (res, edges) →
        ∀ e ∈ edges, e.1 ∈ dictKeys res ∧ e.2 ∈ dictKeys res ∧ e.1 ≠ e.2)
    ∧ (∀ (files : List IaCFile) (res : List (String × Val))
        (edges : List (String × String)),
        staticPulumiYamlGraph files = .ok (res, edges) →
        ∀ e ∈ edges, e.1 ∈ dictKeys res ∧ e.2 ∈ dictKeys res ∧ e.1 ≠ e.2) :=
  ⟨staticTerraformGraph_inv, staticCloudFormationGraph_inv,
    staticBicepGraph_inv, staticPulumiYamlGraph_inv⟩

/-- Witness for C1 at the one-file Terraform example: the single produced
edge joins two distinct existing resource ids. -/
theorem edges_endpoints_exist_and_no_self_edges_witness :
    "aws_vpc.main" ∈ dictKeys (terraformResourcesFromFiles [exTfFile] noResolve).resources ∧
    "aws_subnet.s" ∈ dictKeys (terraformResourcesFromFiles [exTfFile] noResolve).resources ∧
    "aws_vpc.main" ≠ "aws_subnet.s" :=
  edges_endpoints_exist_and_no_self_edges.1 [exTfFile] noResolve
    (terraformResourcesFromFiles [exTfFile] noResolve).resources
    (terraformGraphEdges (terraformResourcesFromFiles [exTfFile] noResolve).resources
      (terraformResourcesFromFiles [exTfFile] noResolve).moduleRefMaps
      (terraformResourcesFromFiles [exTfFile] noResolve).envRefMaps)
    rfl ("aws_vpc.main", "aws_subnet.s") (by decide)

/-- C2 (amended): when the directly extracted edge set is non-empty, the
fallback chain builder is never invoked and the returned edges are exactly
the direct edges; when the direct edge set is empty and some module-prefix
scope holds more than one resource, the returned fallback edge set is
non-empty. -/
theorem tf_fallback_exclusivity :
    (∀ (res : List (String × Val)) (mm em : List (String × List (String × String))),
      terraformDirectEdges res mm em ≠ [] →
      terraformGraphEdges res mm em = terraformDirectEdges res mm em)
    ∧ (∀ (res : List (String × Val)) (mm em : List (String × List (String × String)))
        (p : String),
        terraformDirectEdges res mm em = [] →
        2 ≤ (keysWithScope res p).length →
        terraformGraphEdges res mm em ≠ []) := by
  constructor
  · intro res mm em h
    unfold terraformGraphEdges
    rw [if_neg h]
  · intro res mm em p h h2
    unfold terraformGraphEdges
    rw [if_pos h]
    exact fallbackChainEdges_ne_nil res p h2

/-- Counterexample to C2 as stated: a genuine Terraform load (one root
resource plus one local-module resource) with two resources and no direct
references, whose returned edge set is nevertheless empty — the two
resources fall into different module-prefix scopes, so the fallback chains
nothing. -/
theorem tf_fallback_exclusivity_counterexample :
    (terraformResourcesFromFiles [exModRootFile] exModResolve).resources.length = 2 ∧
    staticTerraformGraph [exModRootFile] exModResolve =
      .ok ((terraformResourcesFromFiles [exModRootFile] exModResolve).resources, []) :=
  ⟨rfl, rfl⟩

/-- Witness for C2: the direct edge of the simple example is returned
unchanged, and a flat two-resource map (one scope) chains non-emptily. -/
theorem tf_fallback_exclusivity_witness :
    (terraformGraphEdges (terraformResourcesFromFiles [exTfFile] noResolve).resources
        (terraformResourcesFromFiles [exTfFile] noResolve).moduleRefMaps
        (terraformResourcesFromFiles [exTfFile] noResolve).envRefMaps
      = terraformDirectEdges (terraformResourcesFromFiles [exTfFile] noResolve).resources
        (terraformResourcesFromFiles [exTfFile] noResolve).moduleRefMaps
        (terraformResourcesFromFiles [exTfFile] noResolve).envRefMaps)
    ∧ terraformGraphEdges exFlatRes [] [] ≠ [] :=
  ⟨tf_fallback_exclusivity.1 _ _ _ (by decide),
   tf_fallback_exclusivity.2 exFlatRes [] [] "" (by decide) (by decide)⟩

/-- C3: a Terraform load spanning the two detected environments `dev` and
`prod`, each declaring `aws_vpc.main`, produces the final ids
`aws_vpc.dev__main` and `aws_vpc.prod__main`; the dev file's reference
string `aws_vpc.main` yields exactly the edge into `aws_vpc.dev__main`
(and never one involving `aws_vpc.prod__main`, as the full edge-set
equality shows). -/
theorem env_round_trip :
    (terraformResourcesFromFiles [exDevFile, exProdFile] noResolve).resources.map Prod.fst
      = ["aws_vpc.dev__main", "aws_subnet.dev__s", "aws_vpc.prod__main"] ∧
    staticTerraformGraph [exDevFile, exProdFile] noResolve
      = .ok ((terraformResourcesFromFiles [exDevFile, exProdFile] noResolve).resources,
          [("aws_vpc.dev__main", "aws_subnet.dev__s")]) :=
  ⟨rfl, rfl⟩

/-- C4 (amended): dispatch tries Terraform, CloudFormation, Bicep, Pulumi
YAML in that fixed order; only the first succeeding format's result is
used; when no format succeeds, a fallback document with a single
human-readable reason (the CloudFormation attempt's message, or a default
when it is empty) is returned instead of an exception propagating.  But an
attempt is NOT abandoned exactly when its parse fails or yields zero
resources: the CloudFormation and Pulumi attempts also abort on a
successfully parsed document whose root is not a mapping (its `.get`
raises `AttributeError`), and the Terraform attempt also aborts on a
parsed file whose `resource` or `module` value is truthy but non-iterable
(`TypeError`), in each case even when other parsed documents supplied
resources.  The last four clauses state the actual abandonment conditions
per format. -/
theorem format_dispatch :
    ∀ (files : List IaCFile) (resolve : ModuleResolver),
      (∀ g, staticTerraformGraph files resolve = .ok g →
        staticMarkdownDispatch files resolve = .diagram "terraform" g.1 g.2)
      ∧ (∀ e g, staticTerraformGraph files resolve = .error e →
          staticCloudFormationGraph files = .ok g →
          staticMarkdownDispatch files resolve = .diagram "cloudformation" g.1 g.2)
      ∧ (∀ e1 e2 g, staticTerraformGraph files resolve = .error e1 →
          staticCloudFormationGraph files = .error e2 →
          staticBicepGraph files = .ok g →
          staticMarkdownDispatch files resolve = .diagram "bicep" g.1 g.2)
      ∧ (∀ e1 e2 e3 g, staticTerraformGraph files resolve = .error e1 →
          staticCloudFormationGraph files = .error e2 →
          staticBicepGraph files = .error e3 →
          staticPulumiYamlGraph files = .ok g →
          staticMarkdownDispatch files resolve = .diagram "pulumi" g.1 g.2)
      ∧ (∀ e1 e2 e3 e4, staticTerraformGraph files resolve = .error e1 →
          staticCloudFormationGraph files = .error e2 →
          staticBicepGraph files = .error e3 →
          staticPulumiYamlGraph files = .error e4 →
          staticMarkdownDispatch files resolve =
            .fallbackDoc (files.map (fun f => joinPath f.parts))
              (if e2 = "" then "No supported IaC parsers produced a diagram." else e2))
      ∧ ((∃ e, staticTerraformGraph files resolve = .error e) ↔
          ((tfFirstRaise files resolve).isSome = true ∨
            (terraformResourcesFromFiles files resolve).resources = []))
      ∧ ((∃ e, staticCloudFormationGraph files = .error e) ↔
          (cfnTemplates files = [] ∨
            (firstNonMapping (cfnTemplates files)).isSome = true ∨
            cfnCollectResources (cfnTemplates files) = []))
      ∧ ((∃ e, staticBicepGraph files = .error e) ↔ (bicepScanFiles files).resources = [])
      ∧ ((∃ e, staticPulumiYamlGraph files = .error e) ↔
          (pulumiStacks files = [] ∨
            (firstNonMapping (pulumiStacks files)).isSome = true ∨
            pulumiCollectResources (pulumiStacks files) = [])) := by
  intro files resolve
  refine ⟨?_, ?_, ?_, ?_, ?_, ?_, ?_, ?_, ?_⟩
  · intro g h
    unfold staticMarkdownDispatch
    rw [h]
  · intro e g h1 h2
    unfold staticMarkdownDispatch
    rw [h1, h2]
  · intro e1 e2 g h1 h2 h3
    unfold staticMarkdownDispatch
    rw [h1, h2, h3]
  · intro e1 e2 e3 g h1 h2 h3 h4
    unfold staticMarkdownDispatch
    rw [h1, h2, h3, h4]
  · intro e1 e2 e3 e4 h1 h2 h3 h4
    unfold staticMarkdownDispatch
    rw [h1, h2, h3, h4]
  · constructor
    · rintro ⟨e, he⟩
      unfold staticTerraformGraph at he
      cases hr : tfFirstRaise files resolve with
      | some v => exact Or.inl rfl
      | none =>
        rw [hr] at he
        by_cases hc : (terraformResourcesFromFiles files resolve).resources = []
        · exact Or.inr hc
        · rw [if_neg hc] at he
          cases he
    · rintro (hc | hc)
      · cases hr : tfFirstRaise files resolve with
        | some v => exact ⟨notIterableMsg v, by unfold staticTerraformGraph; rw [hr]⟩
        | none =>
          rw [hr] at hc
          exact Bool.noConfusion hc
      · cases hr : tfFirstRaise files resolve with
        | some v => exact ⟨notIterableMsg v, by unfold staticTerraformGraph; rw [hr]⟩
        | none =>
          exact ⟨_, by unfold staticTerraformGraph; rw [hr, if_pos hc]⟩
  · constructor
    · rintro ⟨e, he⟩
      unfold staticCloudFormationGraph at he
      by_cases hc1 : cfnTemplates files = []
      · exact Or.inl hc1
      · rw [if_neg hc1] at he
        cases hf : firstNonMapping (cfnTemplates files) with
        | some t => exact Or.inr (Or.inl rfl)
        | none =>
          rw [hf] at he
          by_cases hc2 : cfnCollectResources (cfnTemplates files) = []
          · exact Or.inr (Or.inr hc2)
          · rw [if_neg hc2] at he
            cases he
    · rintro (hc | hc | hc)
      · exact ⟨_, by unfold staticCloudFormationGraph; rw [if_pos hc]⟩
      · by_cases hc1 : cfnTemplates files = []
        · exact ⟨_, by unfold staticCloudFormationGraph; rw [if_pos hc1]⟩
        · cases hf : firstNonMapping (cfnTemplates files) with
          | some t =>
            exact ⟨noGetAttrMsg t,
              by unfold staticCloudFormationGraph; rw [if_neg hc1, hf]⟩
          | none =>
            rw [hf] at hc
            exact Bool.noConfusion hc
      · by_cases hc1 : cfnTemplates files = []
        · exact ⟨_, by unfold staticCloudFormationGraph; rw [if_pos hc1]⟩
        · cases hf : firstNonMapping (cfnTemplates files) with
          | some t =>
            exact ⟨noGetAttrMsg t,
              by unfold staticCloudFormationGraph; rw [if_neg hc1, hf]⟩
          | none =>
            exact ⟨_,
              by unfold staticCloudFormationGraph; rw [if_neg hc1, hf, if_pos hc]⟩
  · unfold staticBicepGraph
    constructor
    · rintro ⟨e, he⟩
      by_cases hc : (bicepScanFiles files).resources = []
      · exact hc
      · rw [if_neg hc] at he
        cases he
    · intro hc
      exact ⟨_, by rw [if_pos hc]⟩
  · constructor
    · rintro ⟨e, he⟩
      unfold staticPulumiYamlGraph at he
      by_cases hc1 : pulumiStacks files = []
      · exact Or.inl hc1
      · rw [if_neg hc1] at he
        cases hf : firstNonMapping (pulumiStacks files) with
        | some t => exact Or.inr (Or.inl rfl)
        | none =>
          rw [hf] at he
          by_cases hc2 : pulumiCollectResources (pulumiStacks files) = []
          · exact Or.inr (Or.inr hc2)
          · rw [if_neg hc2] at he
            cases he
    · rintro (hc | hc | hc)
      · exact ⟨_, by unfold staticPulumiYamlGraph; rw [if_pos hc]⟩
      · by_cases hc1 : pulumiStacks files = []
        · exact ⟨_, by unfold staticPulumiYamlGraph; rw [if_pos hc1]⟩
        · cases hf : firstNonMapping (pulumiStacks files) with
          | some t =>
            exact ⟨noGetAttrMsg t,
              by unfold staticPulumiYamlGraph; rw [if_neg hc1, hf]⟩
          | none =>
            rw [hf] at hc
            exact Bool.noConfusion hc
      · by_cases hc1 : pulumiStacks files = []
        · exact ⟨_, by unfold staticPulumiYamlGraph; rw [if_pos hc1]⟩
        · cases hf : firstNonMapping (pulumiStacks files) with
          | some t =>
            exact ⟨noGetAttrMsg t,
              by unfold staticPulumiYamlGraph; rw [if_neg hc1, hf]⟩
          | none =>
            exact ⟨_,
              by unfold staticPulumiYamlGraph; rw [if_neg hc1, hf, if_pos hc]⟩

/-- Counterexample to C4 as stated: one well-formed CloudFormation file
(parsed template holding a typed resource) together with one `.cfn.json`
file parsing to the JSON list `[]` — every parse succeeded and the
collection loop yields a resource, yet the CloudFormation attempt is
abandoned with the `AttributeError` text, and dispatch falls through to
the fallback document carrying that text; so abandonment is not "exactly
when parse fails or zero resources". -/
theorem format_dispatch_counterexample :
    cfnTemplates [exCfnGoodFile, exCfnListFile]
        = [.vDict [("Resources",
            .vDict [("Bucket", .vDict [("Type", .vStr "AWS::S3::Bucket")])])],
           .vList []] ∧
    cfnCollectResources (cfnTemplates [exCfnGoodFile, exCfnListFile])
        = [("Bucket", .vDict [("Type", .vStr "AWS::S3::Bucket")])] ∧
    staticCloudFormationGraph [exCfnGoodFile, exCfnListFile]
        = .error (noGetAttrMsg (.vList [])) ∧
    staticMarkdownDispatch [exCfnGoodFile, exCfnListFile] noResolve
        = .fallbackDoc ["app.cfn.yaml", "broken.cfn.json"]
            (noGetAttrMsg (.vList [])) :=
  ⟨rfl, rfl, rfl, rfl⟩

/-- Witness for C4: dispatch on an empty file set falls through all four
formats and returns the fallback document carrying the CloudFormation
attempt's message. -/
theorem format_dispatch_witness :
    staticMarkdownDispatch [] noResolve =
      .fallbackDoc []
        "No CloudFormation templates parsed from the changed files." :=
  (format_dispatch [] noResolve).2.2.2.2.1
    "No Terraform resources parsed from the changed files."
    "No CloudFormation templates parsed from the changed files."
    "No Bicep resources parsed from the changed files."
    "No Pulumi YAML stacks parsed from the changed files."
    rfl rfl rfl rfl

/-- Membership in the extractor's fold, characterized by the walked
string scalars. -/
theorem mem_tfExtract_fold (l : List Val) (acc : List String) (a : String) :
    a ∈ l.foldl
        (fun acc item =>
          match item with
          | Val.vStr s => (tfStringRefs s).foldl setAdd acc
          | _ => acc)
        acc
      ↔ a ∈ acc ∨ ∃ s, Val.vStr s ∈ l ∧ a ∈ tfStringRefs s := by
  induction l generalizing acc with
  | nil => simp
  | cons item l ih =>
    rw [List.foldl_cons, ih]
    cases item with
    | vStr s0 =>
      simp only [mem_foldl_setAdd, List.mem_cons]
      constructor
      · rintro ((h | h) | ⟨s, hs, ha⟩)
        · exact Or.inl h
        · exact Or.inr ⟨s0, Or.inl rfl, h⟩
        · exact Or.inr ⟨s, Or.inr hs, ha⟩
      · rintro (h | ⟨s, (hs | hs), ha⟩)
        · exact Or.inl (Or.inl h)
        · injection hs with hs
          subst hs
          exact Or.inl (Or.inr ha)
        · exact Or.inr ⟨s, hs, ha⟩
    | vInt n =>
      simp only [List.mem_cons]
      constructor
      · rintro (h | ⟨s, hs, ha⟩)
        · exact Or.inl h
        · exact Or.inr ⟨s, Or.inr hs, ha⟩
      · rintro (h | ⟨s, (hs | hs), ha⟩)
        · exact Or.inl h
        · cases hs
        · exact Or.inr ⟨s, hs, ha⟩
    | vBool b =>
      simp only [List.mem_cons]
      constructor
      · rintro (h | ⟨s, hs, ha⟩)
        · exact Or.inl h
        · exact Or.inr ⟨s, Or.inr hs, ha⟩
      · rintro (h | ⟨s, (hs | hs), ha⟩)
        · exact Or.inl h
        · cases hs
        · exact Or.inr ⟨s, hs, ha⟩
    | vNull =>
      simp only [List.mem_cons]
      constructor
      · rintro (h | ⟨s, hs, ha⟩)
        · exact Or.inl h
        · exact Or.inr ⟨s, Or.inr hs, ha⟩
      · rintro (h | ⟨s, (hs | hs), ha⟩)
        · exact Or.inl h
        · cases hs
        · exact Or.inr ⟨s, hs, ha⟩
    | vList xs =>
      simp only [List.mem_cons]
      constructor
      · rintro (h | ⟨s, hs, ha⟩)
        · exact Or.inl h
        · exact Or.inr ⟨s, Or.inr hs, ha⟩
      · rintro (h | ⟨s, (hs | hs), ha⟩)
        · exact Or.inl h
        · cases hs
        · exact Or.inr ⟨s, hs, ha⟩
    | vDict kvs =>
      simp only [List.mem_cons]
      constructor
      · rintro (h | ⟨s, hs, ha⟩)
        · exact Or.inl h
        · exact Or.inr ⟨s, Or.inr hs, ha⟩
      · rintro (h | ⟨s, (hs | hs), ha⟩)
        · exact Or.inl h
        · cases hs
        · exact Or.inr ⟨s, hs, ha⟩

/-- C5 (amended): the interpolation extractor returns exactly the
first-two-segment strings of the leftmost, non-overlapping, greedy
identifier-chain matches at positions not preceded by an identifier
character or hyphen (`tfStringRefs`), over the string scalars of the
tree; membership depends only on which string scalars the tree contains
— the result is a set independent of traversal order, and the extractor
is a pure function. -/
theorem tf_extractor_characterization :
    ∀ (v : Val) (a : String),
      a ∈ extractTfResourceRefs v ↔ ∃ s, Val.vStr s ∈ walk v ∧ a ∈ tfStringRefs s := by
  intro v a
  unfold extractTfResourceRefs
  rw [mem_tfExtract_fold]
  simp

/-- Counterexample to C5 as stated: the string `"-a.b"` contains the
dot-separated identifier chain `a.b` (at a position preceded by `-`,
which is not an identifier character), yet the extractor returns nothing —
the regex's negative lookbehind `(?<![\w-])` also rejects a preceding
hyphen. -/
theorem tf_extractor_characterization_counterexample :
    containsChainB "-a.b" "a" "b" = true ∧
    extractTfResourceRefs (.vStr "-a.b") = [] := by decide

/-- Membership in one template's `Resources` collection step. -/
theorem mem_cfnCollect_entries (entries : List (String × Val))
    (acc : List (String × Val)) (rid : String) :
    rid ∈ dictKeys (entries.foldl
        (fun res e =>
          match e.2 with
          | Val.vDict _ => dictInsert res e.1 e.2
          | _ => res)
        acc)
      ↔ rid ∈ dictKeys acc ∨ ∃ body, (rid, body) ∈ entries ∧ ∃ kvs, body = Val.vDict kvs := by
  induction entries generalizing acc with
  | nil => simp
  | cons e entries ih =>
    rw [List.foldl_cons, ih]
    obtain ⟨k, body⟩ := e
    cases hb : body
    case vDict kvs =>
      rw [mem_dictKeys_dictInsert]
      constructor
      · rintro ((h | rfl) | ⟨b, hbm, hkvs⟩)
        · exact Or.inl h
        · exact Or.inr ⟨Val.vDict kvs, List.mem_cons_self _ _, kvs, rfl⟩
        · exact Or.inr ⟨b, List.mem_cons_of_mem _ hbm, hkvs⟩
      · rintro (h | ⟨b, hbm, hkvs⟩)
        · exact Or.inl (Or.inl h)
        · rcases List.mem_cons.1 hbm with he | hm
          · injection he with h1 h2
            exact Or.inl (Or.inr h1)
          · exact Or.inr ⟨b, hm, hkvs⟩
    all_goals {
      constructor
      · rintro (h | ⟨b, hbm, hkvs⟩)
        · exact Or.inl h
        · exact Or.inr ⟨b, List.mem_cons_of_mem _ hbm, hkvs⟩
      · rintro (h | ⟨b, hbm, ⟨kvs, hkvs⟩⟩)
        · exact Or.inl h
        · rcases List.mem_cons.1 hbm with he | hm
          · injection he with h1 h2
            subst hkvs
            exact Val.noConfusion h2
          · exact Or.inr ⟨b, hm, kvs, hkvs⟩ }

/-- C6 (amended): the CloudFormation loader includes a logical id from the
`Resources` map exactly when that entry's body is a mapping — the presence
of a `Type` key is not checked; an entry with a non-mapping body is the
one that is excluded. -/
theorem cfn_resource_inclusion :
    ∀ (templates : List Val) (rid : String),
      rid ∈ dictKeys (cfnCollectResources templates) ↔
        ∃ t ∈ templates, ∃ entries, valGet t "Resources" = some (.vDict entries) ∧
          ∃ body, (rid, body) ∈ entries ∧ ∃ kvs, body = Val.vDict kvs := by
  intro templates rid
  unfold cfnCollectResources
  have haux : ∀ (l : List Val) (acc : List (String × Val)),
      rid ∈ dictKeys (l.foldl
        (fun res t =>
          match valGet t "Resources" with
          | some (Val.vDict entries) =>
            entries.foldl
              (fun res e =>
                match e.2 with
                | Val.vDict _ => dictInsert res e.1 e.2
                | _ => res)
              res
          | _ => res)
        acc)
      ↔ rid ∈ dictKeys acc ∨
        ∃ t ∈ l, ∃ entries, valGet t "Resources" = some (.vDict entries) ∧
          ∃ body, (rid, body) ∈ entries ∧ ∃ kvs, body = Val.vDict kvs := by
    intro l
    induction l with
    | nil => simp
    | cons t l ih =>
      intro acc
      rw [List.foldl_cons, ih]
      cases hres : valGet t "Resources" with
      | none =>
        simp only [List.mem_cons]
        constructor
        · rintro (h | ⟨t', ht', rest⟩)
          · exact Or.inl h
          · exact Or.inr ⟨t', Or.inr ht', rest⟩
        · rintro (h | ⟨t', (rfl | ht'), rest⟩)
          · exact Or.inl h
          · obtain ⟨entries, he, _⟩ := rest
            rw [hres] at he
            cases he
          · exact Or.inr ⟨t', ht', rest⟩
      | some v =>
        cases hv : v
        case vDict entries =>
          rw [mem_cfnCollect_entries]
          simp only [List.mem_cons]
          constructor
          · rintro ((h | ⟨body, hbm, hkvs⟩) | ⟨t', ht', rest⟩)
            · exact Or.inl h
            · exact Or.inr ⟨t, Or.inl rfl, entries, by rw [hres, hv], body, hbm, hkvs⟩
            · exact Or.inr ⟨t', Or.inr ht', rest⟩
          · rintro (h | ⟨t', (rfl | ht'), rest⟩)
            · exact Or.inl (Or.inl h)
            · obtain ⟨entries', he, body, hbm, hkvs⟩ := rest
              rw [hres, hv] at he
              injection he with he
              injection he with he
              subst he
              exact Or.inl (Or.inr ⟨body, hbm, hkvs⟩)
            · exact Or.inr ⟨t', ht', rest⟩
        all_goals {
          simp only [List.mem_cons]
          constructor
          · rintro (h | ⟨t', ht', rest⟩)
            · exact Or.inl h
            · exact Or.inr ⟨t', Or.inr ht', rest⟩
          · rintro (h | ⟨t', (rfl | ht'), rest⟩)
            · exact Or.inl h
            · obtain ⟨entries, he, _⟩ := rest
              rw [hres, hv] at he
              cases he
            · exact Or.inr ⟨t', ht', rest⟩ }
  rw [haux]
  simp [dictKeys]

/-- Counterexample to C6 as stated: a `Resources` entry whose mapping body
has no `Type` key is still included in the returned resource map. -/
theorem cfn_resource_inclusion_counterexample :
    "Orphan" ∈ dictKeys (cfnCollectResources [exCfnOrphanTemplate]) ∧
    dictGet (cfnCollectResources [exCfnOrphanTemplate]) "Orphan" = some (.vDict []) ∧
    valGet (.vDict []) "Type" = none := by decide

/-- An overwriting key fold equals the last produced candidate. -/
theorem foldl_lastSome (f : String → Option String) :
    ∀ (ks : List String) (acc : Option String),
      ks.foldl (fun a k => match f k with | some r => some r | none => a) acc
        = match (ks.filterMap f).getLast? with | some r => some r | none => acc := by
  intro ks
  induction ks with
  | nil => intro acc; simp
  | cons k ks ih =>
    intro acc
    rw [List.foldl_cons, ih]
    cases hf : f k with
    | none => simp [List.filterMap_cons, hf]
    | some r =>
      simp only [List.filterMap_cons, hf]
      cases hg : (List.filterMap f ks).getLast? with
      | none =>
        have hnil : List.filterMap f ks = [] := List.getLast?_eq_none_iff.1 hg
        rw [hnil]
        simp
      | some r2 =>
        have hcons : (r :: List.filterMap f ks).getLast? = some r2 := by
          cases hl : List.filterMap f ks with
          | nil => rw [hl] at hg; cases hg
          | cons x xs =>
            rw [hl] at hg
            rw [List.getLast?_cons_cons]
            exact hg
        rw [hcons]

/-- C7 (amended): in the Network Hierarchy Builder's attribute-scan phase,
when several of the scanned keys yield references to known ids, the link
recorded is the one found under the LAST such key in the fixed key order
(`vpc_id`, `virtual_network_name`, `vcn_id`, resp. `subnet_id`,
`subnet_ids`, `subnet`, `subnets`) — the `break` in the source leaves only
the inner reference loop, so a later key overwrites an earlier key's find;
within a single key, the first matching extracted reference (in the
embedding's scan order; a Python set iteration in the source) wins. -/
theorem hierarchy_scan_last_key_wins :
    ∀ (attrs : Val) (vpcs subnets : List String),
      subnetAttrScanVpc attrs vpcs
        = (subnetVpcKeys.filterMap (subnetKeyCand attrs vpcs)).getLast? ∧
      resourceAttrScanSubnet attrs subnets
        = (resourceSubnetKeys.filterMap (resourceKeyCand attrs subnets)).getLast? := by
  intro attrs vpcs subnets
  constructor
  · have hstep : (fun (acc : Option String) (key : String) =>
        match valGet attrs key with
        | some (.vStr s) =>
          match firstKnownRef (extractTfResourceRefs (.vStr s)) vpcs with
          | some r => some r
          | none => acc
        | _ => acc)
        = (fun (acc : Option String) (key : String) =>
            match subnetKeyCand attrs vpcs key with
            | some r => some r
            | none => acc) := by
      funext acc key
      unfold subnetKeyCand
      cases hv : valGet attrs key with
      | none => rfl
      | some v => cases v <;> rfl
    unfold subnetAttrScanVpc
    rw [hstep, foldl_lastSome (subnetKeyCand attrs vpcs) subnetVpcKeys none]
    cases (subnetVpcKeys.filterMap (subnetKeyCand attrs vpcs)).getLast? <;> rfl
  · have hstep : (fun (acc : Option String) (key : String) =>
        match valGet attrs key with
        | some v =>
          match firstKnownRef (extractTfResourceRefs v) subnets with
          | some r => some r
          | none => acc
        | none => acc)
        = (fun (acc : Option String) (key : String) =>
            match resourceKeyCand attrs subnets key with
            | some r => some r
            | none => acc) := by
      funext acc key
      unfold resourceKeyCand
      cases hv : valGet attrs key with
      | none => rfl
      | some v => rfl
    unfold resourceAttrScanSubnet
    rw [hstep, foldl_lastSome (resourceKeyCand attrs subnets) resourceSubnetKeys none]
    cases (resourceSubnetKeys.filterMap (resourceKeyCand attrs subnets)).getLast? <;> rfl

/-- Counterexample to C7 as stated: a subnet whose `vpc_id` references the
known network `aws_vpc.a` and whose `vcn_id` references the known network
`oci_core_vcn.b` is linked to `oci_core_vcn.b` (the last matching key),
not to `aws_vpc.a`, the first candidate in Tree Walker traversal order. -/
theorem hierarchy_scan_counterexample :
    subnetAttrScanVpc exSubnetAttrs ["aws_vpc.a", "oci_core_vcn.b"]
      = some "oci_core_vcn.b" ∧
    firstCandidateInWalkOrder exSubnetAttrs subnetVpcKeys
      ["aws_vpc.a", "oci_core_vcn.b"] true = some "aws_vpc.a" := by decide

/-- A string without a dollar sign yields no substitution-scanner matches. -/
theorem subScanFrom_idle_no_dollar (idC : Char → Bool) (bare : Bool) :
    ∀ l : List Char, (∀ c ∈ l, c ≠ '$') → subScanFrom idC bare .idle l = [] := by
  intro l
  induction l with
  | nil => intro _; rfl
  | cons c cs ih =>
    intro h
    have hc : c ≠ '$' := h c (List.mem_cons_self c cs)
    have hstep : subStep idC bare SubSt.idle c = (SubSt.idle, none) := by
      simp [subStep, subIdle, hc]
    simp only [subScanFrom, hstep]
    exact ih (fun c' hc' => h c' (List.mem_cons_of_mem _ hc'))

/-- `cfnSubRefs` on a dollar-free string is empty. -/
theorem cfnSubRefs_eq_nil (s : String) (h : '$' ∉ s.data) : cfnSubRefs s = [] :=
  subScanFrom_idle_no_dollar isCfnIdChar true s.data
    (fun c hc hceq => h (hceq ▸ hc))

/-- `split(sep, 1)` at the first separator occurrence: when the head part
holds no separator, `splitOnce` cuts exactly there. -/
theorem splitOnce_sep_concat (pre post : List Char) (h : '.' ∉ pre) :
    splitOnce ['.'] (pre ++ '.' :: post) = some (pre, post) := by
  induction pre with
  | nil =>
    show splitOnce ['.'] ('.' :: post) = some ([], post)
    simp [splitOnce, List.isPrefixOf]
  | cons c cs ih =>
    rw [List.mem_cons, not_or] at h
    obtain ⟨h1, h2⟩ := h
    have hpre : (['.'] : List Char).isPrefixOf (c :: (cs ++ '.' :: post)) = false := by
      simp [List.isPrefixOf, h1]
    rw [List.cons_append]
    simp only [splitOnce, hpre]
    simp [ih h2]

/-- C8: the CloudFormation intrinsic-reference extractor treats the two
`Fn::GetAtt` spellings alike — given as the list `[X, Attr]` or as the
dotted string `"X.Attr"`, both contribute exactly the leading logical id
`X` to the returned reference list (for a well-formed id `X` holding no
dot, and no dollar sign in either part, so that the bare-string `$\x7b..\x7d`
scan of the same values finds nothing extra). -/
theorem cfn_getatt_list_and_string_agree :
    ∀ (X Attr : String), '.' ∉ X.data → '$' ∉ X.data → '$' ∉ Attr.data →
      extractCfnRefs (.vDict [("Fn::GetAtt", .vList [.vStr X, .vStr Attr])]) = [X] ∧
      extractCfnRefs (.vDict [("Fn::GetAtt", .vStr (X ++ "." ++ Attr))]) = [X] := by
  intro X Attr hdot hdX hdA
  have hX : cfnSubRefs X = [] := cfnSubRefs_eq_nil X hdX
  have hA : cfnSubRefs Attr = [] := cfnSubRefs_eq_nil Attr hdA
  constructor
  · show (cfnSubRefs Attr).foldl setAdd ((cfnSubRefs X).foldl setAdd (setAdd [] X)) = [X]
    rw [hX, hA]
    show setAdd [] X = [X]
    simp [setAdd]
  · have hgdata : (X ++ "." ++ Attr).data = X.data ++ '.' :: Attr.data := by
      show (X.data ++ ['.']) ++ Attr.data = X.data ++ '.' :: Attr.data
      simp
    have hsp : splitOnce ['.'] (X ++ "." ++ Attr).data = some (X.data, Attr.data) := by
      rw [hgdata]; exact splitOnce_sep_concat X.data Attr.data hdot
    have hdg : '$' ∉ (X ++ "." ++ Attr).data := by
      rw [hgdata]
      intro hmem
      rcases List.mem_append.1 hmem with hm | hm
      · exact hdX hm
      · rcases List.mem_cons.1 hm with hm | hm
        · exact absurd hm (by decide)
        · exact hdA hm
    have hg : cfnSubRefs (X ++ "." ++ Attr) = [] := cfnSubRefs_eq_nil _ hdg
    show (cfnSubRefs (X ++ "." ++ Attr)).foldl setAdd
        (setAdd [] (match splitOnce ['.'] (X ++ "." ++ Attr).data with
          | some (pre, _) => String.mk pre
          | none => X ++ "." ++ Attr)) = [X]
    rw [hg, hsp]
    show setAdd [] X = [X]
    simp [setAdd]

/-- Witness for C8 at the concrete attribute `Fn::GetAtt` of `Role.Arn`. -/
theorem cfn_getatt_list_and_string_agree_witness :
    ('.' ∉ ("Role" : String).data ∧ '$' ∉ ("Role" : String).data ∧
      '$' ∉ ("Arn" : String).data) ∧
    (extractCfnRefs (.vDict [("Fn::GetAtt", .vList [.vStr "Role", .vStr "Arn"])])
        = ["Role"] ∧
      extractCfnRefs (.vDict [("Fn::GetAtt", .vStr ("Role" ++ "." ++ "Arn"))])
        = ["Role"]) :=
  ⟨by decide,
    cfn_getatt_list_and_string_agree "Role" "Arn" (by decide) (by decide) (by decide)⟩

/-- String concatenation acts on the underlying character lists. -/
theorem strData_append (a b : String) : (a ++ b).data = a.data ++ b.data := rfl

/-- C9: the limited file reader is total over its read outcome — a failed
read yields a string beginning `<ERROR:` (never a propagated exception);
a read of more than `maxBytes` bytes yields the processed text of exactly
the first `maxBytes` bytes with the literal truncation marker appended
(so it ends in the marker); a read within the cap yields the processed
text of the whole byte string with no marker appended. -/
theorem read_file_limited_total :
    ∀ (e : String) (data : List Nat) (maxBytes : Nat),
      (readFileLimited (.error e) maxBytes
          = "<ERROR: failed to read file: " ++ e ++ ">" ∧
        pyStartsWith (readFileLimited (.error e) maxBytes) "<ERROR:" = true) ∧
      (maxBytes < data.length →
        readFileLimited (.ok data) maxBytes
            = processBytes (data.take maxBytes) ++ truncationMarker ∧
          pyEndsWith (readFileLimited (.ok data) maxBytes) truncationMarker = true) ∧
      (data.length ≤ maxBytes →
        readFileLimited (.ok data) maxBytes = processBytes data) := by
  intro e data maxBytes
  refine ⟨⟨rfl, ?_⟩, ?_, ?_⟩
  · rfl
  · intro h
    have h1 : readFileLimited (.ok data) maxBytes
        = processBytes (data.take maxBytes) ++ truncationMarker := by
      show (if data.length > maxBytes then
          processBytes (data.take maxBytes) ++ truncationMarker
        else processBytes data)
        = processBytes (data.take maxBytes) ++ truncationMarker
      rw [if_pos h]
    refine ⟨h1, ?_⟩
    rw [h1]
    show truncationMarker.data.isSuffixOf
        ((processBytes (data.take maxBytes) ++ truncationMarker)).data = true
    rw [strData_append]
    simp [List.isSuffixOf_iff_suffix, List.suffix_append]
  · intro h
    show (if data.length > maxBytes then
        processBytes (data.take maxBytes) ++ truncationMarker
      else processBytes data) = processBytes data
    rw [if_neg (Nat.not_lt.2 h)]

/-- Witness for C9 on the byte string `hi\r\n` (length 4), truncated at
cap 2 and returned whole at cap 8. -/
theorem read_file_limited_total_witness :
    (2 < [104, 105, 13, 10].length ∧
      readFileLimited (.ok [104, 105, 13, 10]) 2
          = processBytes ([104, 105, 13, 10].take 2) ++ truncationMarker ∧
        pyEndsWith (readFileLimited (.ok [104, 105, 13, 10]) 2)
          truncationMarker = true) ∧
    ([104, 105, 13, 10].length ≤ 8 ∧
      readFileLimited (.ok [104, 105, 13, 10]) 8
        = processBytes [104, 105, 13, 10]) :=
  ⟨⟨by decide,
      (read_file_limited_total "x" [104, 105, 13, 10] 2).2.1 (by decide)⟩,
    ⟨by decide,
      (read_file_limited_total "x" [104, 105, 13, 10] 8).2.2 (by decide)⟩⟩

/-- The parent step never touches the resource map. -/
theorem bicepParentStep_resources (st : BicepSt) (cur line : String) :
    (bicepParentStep st cur line).resources = st.resources := by
  unfold bicepParentStep
  split
  · split
    · split
      · split <;> rfl
      · rfl
    · rfl
  · rfl

/-- The parent step adds no edge whose source is a symbol absent from the
resource map. -/
theorem bicepParentStep_avoid (st : BicepSt) (cur line b : String)
    (hb : b ∉ dictKeys st.resources) (he : ∀ t, (b, t) ∉ st.edges) :
    ∀ t, (b, t) ∉ (bicepParentStep st cur line).edges := by
  unfold bicepParentStep
  split
  · split
    · split
      · split
        · next hcond =>
          intro t ht
          rcases mem_setAdd.1 ht with h2 | h2
          · exact he t h2
          · injection h2 with h3 h4
            subst h3
            exact hb ((dictGet_isSome_iff ..).1 hcond.1)
        · exact he
      · exact he
    · exact he
  · exact he

/-- The dependsOn reference fold keeps the map and adds no edge sourced at
an absent symbol. -/
theorem bicepDependsFold_avoid (cur line : String) (st : BicepSt) (b : String)
    (hb : b ∉ dictKeys st.resources) (he : ∀ t, (b, t) ∉ st.edges) :
    (bicepDependsFold cur line st).resources = st.resources ∧
      ∀ t, (b, t) ∉ (bicepDependsFold cur line st).edges := by
  unfold bicepDependsFold
  refine List.foldlRecOn
    (motive := fun s : BicepSt =>
      s.resources = st.resources ∧ ∀ t, (b, t) ∉ s.edges)
    _ _ st ⟨rfl, he⟩ ?_
  intro s hs ref _
  by_cases hcond : (dictGet s.resources ref).isSome = true ∧ ref ≠ cur
  · rw [if_pos hcond]
    refine ⟨hs.1, ?_⟩
    intro t ht
    rcases mem_setAdd.1 ht with h2 | h2
    · exact hs.2 t h2
    · injection h2 with h3 h4
      subst h3
      exact hb (hs.1 ▸ (dictGet_isSome_iff ..).1 hcond.1)
  · rw [if_neg hcond]
    exact hs

/-- Closing a dependsOn block leaves both the map and the edges intact. -/
theorem bicepDependsClose_fields (line : String) (st : BicepSt) :
    (bicepDependsClose line st).resources = st.resources ∧
      (bicepDependsClose line st).edges = st.edges := by
  unfold bicepDependsClose
  split <;> exact ⟨rfl, rfl⟩

/-- The dependsOn step keeps the map and adds no edge sourced at an absent
symbol. -/
theorem bicepDependsStep_avoid (st : BicepSt) (cur line b : String)
    (hb : b ∉ dictKeys st.resources) (he : ∀ t, (b, t) ∉ st.edges) :
    (bicepDependsStep st cur line).resources = st.resources ∧
      ∀ t, (b, t) ∉ (bicepDependsStep st cur line).edges := by
  unfold bicepDependsStep
  by_cases hdep : isDependsOnStart line = true
  · rw [if_pos hdep]
    obtain ⟨hr2, he2⟩ :=
      bicepDependsFold_avoid cur line { st with inDep := true } b hb he
    obtain ⟨hr3, he3⟩ := bicepDependsClose_fields line
      (bicepDependsFold cur line { st with inDep := true })
    constructor
    · rw [hr3, hr2]
    · intro t ht
      exact he2 t (he3 ▸ ht)
  · rw [if_neg hdep]
    by_cases hin : st.inDep = true
    · rw [if_pos hin]
      obtain ⟨hr2, he2⟩ := bicepDependsFold_avoid cur line st b hb he
      obtain ⟨hr3, he3⟩ := bicepDependsClose_fields line
        (bicepDependsFold cur line st)
      constructor
      · rw [hr3, hr2]
      · intro t ht
        exact he2 t (he3 ▸ ht)
    · rw [if_neg hin]
      exact ⟨rfl, he⟩

/-- A line that does not declare `b` keeps `b` out of the map and adds no
edge sourced at `b` in the declaration step. -/
theorem bicepDeclStep_avoid (st : BicepSt) (line b : String)
    (hb : b ∉ dictKeys st.resources)
    (hl : (bicepResMatch line).map Prod.fst ≠ some b) :
    b ∉ dictKeys (bicepDeclStep st line).resources ∧
      (bicepDeclStep st line).edges = st.edges := by
  unfold bicepDeclStep
  cases hd : bicepResMatch line with
  | none => exact ⟨hb, rfl⟩
  | some p =>
    obtain ⟨sym, ty⟩ := p
    refine ⟨?_, rfl⟩
    intro hmem
    rcases (mem_dictKeys_dictInsert ..).1 hmem with h2 | h2
    · exact hb h2
    · exact hl (by rw [hd, h2]; rfl)

/-- The body steps of a line keep `b` out of the map and add no edge
sourced at `b`. -/
theorem bicepBodySteps_avoid (st : BicepSt) (line b : String)
    (hb : b ∉ dictKeys st.resources) (he : ∀ t, (b, t) ∉ st.edges) :
    b ∉ dictKeys (bicepBodySteps st line).resources ∧
      ∀ t, (b, t) ∉ (bicepBodySteps st line).edges := by
  unfold bicepBodySteps
  split
  · exact ⟨hb, he⟩
  · cases hc : st.cur with
    | none => exact ⟨hb, he⟩
    | some cur =>
      have hep := bicepParentStep_avoid st cur line b hb he
      have hrp := bicepParentStep_resources st cur line
      have hbp : b ∉ dictKeys (bicepParentStep st cur line).resources := by
        rw [hrp]; exact hb
      obtain ⟨hr2, he2⟩ :=
        bicepDependsStep_avoid (bicepParentStep st cur line) cur line b hbp hep
      refine ⟨?_, he2⟩
      rw [hr2, hrp]
      exact hb

/-- A full scanned line that does not declare `b` keeps `b` out of the map
and adds no edge sourced at `b`. -/
theorem bicepLine_avoid (st : BicepSt) (line b : String)
    (hb : b ∉ dictKeys st.resources) (he : ∀ t, (b, t) ∉ st.edges)
    (hl : (bicepResMatch line).map Prod.fst ≠ some b) :
    b ∉ dictKeys (bicepLine st line).resources ∧
      ∀ t, (b, t) ∉ (bicepLine st line).edges := by
  unfold bicepLine
  obtain ⟨hb1, hedecl⟩ := bicepDeclStep_avoid st line b hb hl
  have hb2 : b ∉ dictKeys (bicepDepthStep (bicepDeclStep st line) line).resources :=
    hb1
  have he2 : ∀ t, (b, t) ∉ (bicepDepthStep (bicepDeclStep st line) line).edges := by
    intro t ht
    have ht2 : (b, t) ∈ (bicepDeclStep st line).edges := ht
    exact he t (hedecl ▸ ht2)
  exact bicepBodySteps_avoid _ line b hb2 he2

/-- C10: a `parent:` or `dependsOn` reference is checked against
the resource map built so far, so a reference to a symbol whose declaring
line has not yet been scanned produces no edge — in general, over any run
of lines none of which declares `b`, no `(b, _)` edge ever appears; on the
concrete file declaring `appA` (whose body says `parent: depB`) before
`depB`, the builder returns both resources and NO edges, while the same
two declarations in the reverse order return the edge `(depB, appA)`. -/
theorem bicep_forward_reference_no_edge :
    (∀ (lines : List String) (st : BicepSt) (b : String),
        b ∉ dictKeys st.resources → (∀ t, (b, t) ∉ st.edges) →
        (∀ l ∈ lines, (bicepResMatch l).map Prod.fst ≠ some b) →
        ∀ t, (b, t) ∉ (lines.foldl bicepLine st).edges) ∧
      staticBicepGraph [exBicepFwdFile]
          = .ok ((bicepScanFiles [exBicepFwdFile]).resources, []) ∧
      (bicepScanFiles [exBicepFwdFile]).resources.map Prod.fst
          = ["appA", "depB"] ∧
      staticBicepGraph [exBicepRevFile]
          = .ok ((bicepScanFiles [exBicepRevFile]).resources, [("depB", "appA")]) := by
  refine ⟨?_, by decide, by decide, by decide⟩
  intro lines st b hb he hl
  refine (List.foldlRecOn
    (motive := fun s : BicepSt =>
      b ∉ dictKeys s.resources ∧ ∀ t, (b, t) ∉ s.edges)
    lines bicepLine st ⟨hb, he⟩ ?_).2
  intro s hs l hlmem
  exact bicepLine_avoid s l b hs.1 hs.2 (hl l hlmem)

/-- Witness for C10 on the first three lines of the forward-reference file
(declaring only `appA`, with `parent: depB` inside its body): no
`(depB, appA)` edge is produced there. -/
theorem bicep_forward_reference_no_edge_witness :
    ("depB" ∉ dictKeys (BicepSt.mk [] [] none 0 false).resources ∧
      (∀ t, ("depB", t) ∉ (BicepSt.mk [] [] none 0 false).edges) ∧
      (∀ l ∈ (pySplitlines exBicepFwdFile.text).take 3,
        (bicepResMatch l).map Prod.fst ≠ some "depB")) ∧
    ("depB", "appA") ∉
      (((pySplitlines exBicepFwdFile.text).take 3).foldl bicepLine
        (BicepSt.mk [] [] none 0 false)).edges :=
  ⟨⟨by decide, fun t ht => absurd ht (List.not_mem_nil _), by decide⟩,
    bicep_forward_reference_no_edge.1
      ((pySplitlines exBicepFwdFile.text).take 3)
      (BicepSt.mk [] [] none 0 false) "depB"
      (by decide) (fun t ht => absurd ht (List.not_mem_nil _)) (by decide) "appA"⟩

end AutoArch
